import Mathlib

/-! # Game of Life on a bounded grid: the engine of `main.go`

A shallow embedding of `World`, `NewWorld`, `init`, `neighbourCount`, `Update`
and `Draw` from `src/main.go`, followed by the properties proved about them.

Modelling conventions.

* Go's `int` is the 64-bit two's-complement integer of the usual targets.  It is
  modelled by `Int`; the sums and products the source forms from coordinates,
  dimensions and indices (`x+i`, `y+j`, `ny*w.width+nx`, `y*w.width+x`,
  `i*cellSize`, `offset+1`, `width*height`) go through `wrap64`, so that a
  wrapped result is visible.  The loop counters and `count` are incremented
  below a bound that is itself an `int` (`x < w.width`, `i < len(w.area)`,
  `count ≤ 8`) and are left unreduced.
* A slice is a `List`; an indexing expression whose index is negative or not
  below the length panics, which is the result `none`.
* The two slices of a `World` are distinct values, as `NewWorld` allocates them
  with two separate `make` calls and `Update` only exchanges them.
* The generator of `math/rand` is an explicit value threaded through `init`.
* The largest slice length the runtime allocates is the parameter `maxAlloc` of
  `makeBools` and `NewWorld`.
-/

namespace Life

/-! ## Machine integers and slices -/

/-- Two's-complement reduction of an integer to the 64-bit `int` range. -/
def wrap64 (n : Int) : Int :=
  (n + 9223372036854775808) % 18446744073709551616 - 9223372036854775808

/-- Go `a + b` on `int`. -/
def add64 (a b : Int) : Int := wrap64 (a + b)

/-- Go `a * b` on `int`. -/
def mul64 (a b : Int) : Int := wrap64 (a * b)

/-- Go `xs[i]` as a read: `none` is the index-out-of-range panic. -/
def load {α : Type} (xs : List α) (i : Int) : Option α :=
  if 0 ≤ i then xs[i.toNat]? else none

/-- Go `xs[i] = v`: `none` is the index-out-of-range panic. -/
def store {α : Type} (xs : List α) (i : Int) (v : α) : Option (List α) :=
  if 0 ≤ i ∧ i.toNat < xs.length then some (xs.set i.toNat v) else none

/-- Go `make([]bool, n)`.  It panics (`makeslice: len out of range`) when `n` is
negative or exceeds `maxAlloc`, the largest length for which the runtime grants a
slice of bytes: its allocation limit (2^48 on linux/amd64), or less when memory is
short.  Otherwise every element is the zero value `false`. -/
def makeBools (maxAlloc n : Int) : Option (List Bool) :=
  if n < 0 ∨ maxAlloc < n then none else some (List.replicate n.toNat false)

/-! ## The world -/

/-- The `World` struct of `main.go`. -/
structure World where
  area : List Bool
  width : Int
  height : Int
  buffer : List Bool
deriving DecidableEq, Repr

/-- The values `-1, 0, 1` taken by the loop variables `j` and `i` of
`neighbourCount`, in the order the loops visit them. -/
def offsets : List Int := [-1, 0, 1]

/-- One pass through the body of the inner loop of `neighbourCount`, for the
offsets `i` and `j`, with `count` the running total. -/
def World.neighbourVisit (w : World) (x y j : Int) (count i : Int) : Option Int :=
  if i = 0 ∧ j = 0 then some count
  else
    let nx := add64 x i
    let ny := add64 y j
    if nx ≥ 0 ∧ ny ≥ 0 ∧ nx < w.width ∧ ny < w.height then
      match load w.area (add64 (mul64 ny w.width) nx) with
      | none => none
      | some true => some (count + 1)
      | some false => some count
    else some count

/-- `World.neighbourCount` of `main.go`: the two nested loops over `j` and `i`. -/
def World.neighbourCount (w : World) (x y : Int) : Option Int :=
  offsets.foldlM (fun count j => offsets.foldlM (w.neighbourVisit x y j) count) 0

/-- The condition `neighbors == 3 || (neighbors == 2 && w.area[idx])` of `Update`;
the slice is read only when the first disjunct fails and `neighbors == 2` holds. -/
def World.aliveNext (w : World) (neighbors idx : Int) : Option Bool :=
  if neighbors = 3 then some true
  else if neighbors = 2 then load w.area idx
  else some false

/-- The body of the inner loop of `Update` for the cell `(x, y)`, acting on the
scratch slice `buf` (the field `w.buffer` as written so far). -/
def World.updateCell (w : World) (y : Int) (buf : List Bool) (x : Int) :
    Option (List Bool) := do
  let idx := add64 (mul64 y w.width) x
  let neighbors ← w.neighbourCount x y
  let buf ← store buf idx false
  let live ← w.aliveNext neighbors idx
  if live then store buf idx true else pure buf

/-- The inner loop `for x := 0; x < w.width; x++` of `Update` on row `y`. -/
def World.updateRow (w : World) (buf : List Bool) (y : Nat) : Option (List Bool) :=
  (List.range w.width.toNat).foldlM (fun b (x : Nat) => w.updateCell y b x) buf

/-- `World.Update` of `main.go`: both loops, then the exchange of the two slices. -/
def World.Update (w : World) : Option World := do
  let buf ← (List.range w.height.toNat).foldlM w.updateRow w.buffer
  pure { w with area := buf, buffer := w.area }

/-- The constant `cellSize` of `main.go`. -/
def cellSize : Int := 4

/-- The body of the loop of `Draw` for index `i` and cell value `live`. -/
def drawCell (pix : List Nat) (i : Int) (live : Bool) : Option (List Nat) := do
  let offset := mul64 i cellSize
  let v : Nat := if live then 255 else 0
  let pix ← store pix offset v
  let pix ← store pix (add64 offset 1) v
  let pix ← store pix (add64 offset 2) v
  store pix (add64 offset 3) v

/-- The loop `for i, live := range w.area` of `Draw`, from index `i` on. -/
def drawFrom : List Bool → Int → List Nat → Option (List Nat)
  | [], _, pix => some pix
  | live :: rest, i, pix => (drawCell pix i live).bind (drawFrom rest (i + 1))

/-- `World.Draw` of `main.go`; bytes are natural numbers.  The four assignments
of one cell are performed in order, and a panic in any of them is the result
`none`. -/
def World.Draw (w : World) (pix : List Nat) : Option (List Nat) :=
  drawFrom w.area 0 pix

/-! ## Construction -/

/-- The generator of `math/rand` as `init` sees it once `rand.Seed` has run: the
stream of raw values it will hand out and the number already consumed. -/
structure Rand where
  raw : Nat → Nat
  pos : Nat

/-- The library call `rand.Intn(n)` by its documented contract: it panics when
`n ≤ 0`, and otherwise consumes one value of the generator and returns an `int` in
`[0, n)`, here the raw value reduced modulo `n`.  Every sequence of results within
range is produced by some generator (`pair_realised`). -/
def Rand.Intn (r : Rand) (n : Int) : Option (Int × Rand) :=
  if n ≤ 0 then none else some ((r.raw r.pos : Int) % n, { r with pos := r.pos + 1 })

/-- The body of the loop of `init`: two draws and one write into `w.area`. -/
def initStep (s : World × Rand) : Option (World × Rand) := do
  let (x, r1) ← s.2.Intn s.1.width
  let (y, r2) ← r1.Intn s.1.height
  let area ← store s.1.area (add64 (mul64 y s.1.width) x) true
  pure ({ s.1 with area := area }, r2)

/-- `World.init` of `main.go`: the loop `for i := 0; i < maxLiveCells; i++`. -/
def World.init (w : World) (maxLiveCells : Int) (r : Rand) : Option (World × Rand) :=
  (List.range maxLiveCells.toNat).foldlM (fun s _ => initStep s) (w, r)

/-- `NewWorld` of `main.go`, returning the world together with the generator as
`init` leaves it.  The first argument is the runtime's `maxAlloc` (see
`makeBools`), which the source does not name. -/
def NewWorld (maxAlloc width height maxInitLiveCells : Int) (r : Rand) :
    Option (World × Rand) := do
  let area ← makeBools maxAlloc (mul64 width height)
  let buffer ← makeBools maxAlloc (mul64 width height)
  World.init { area := area, width := width, height := height, buffer := buffer }
    maxInitLiveCells r

/-! ## Vocabulary of the specification -/

/-- The largest value of a Go `int`. -/
def maxInt : Int := 9223372036854775807

/-- The allocation limit of the Go runtime on linux/amd64, `2^48` bytes. -/
def maxAllocAmd64 : Int := 281474976710656

/-- Cell `(x, y)` lies inside the grid and is alive in `area`; a position outside
the grid is not alive. -/
def World.liveAt (w : World) (x y : Int) : Bool :=
  decide (0 ≤ x ∧ x < w.width ∧ 0 ≤ y ∧ y < w.height) &&
    (w.area[(y * w.width + x).toNat]? == some true)

/-- The eight offsets `(i, j)` with `i, j ∈ {-1, 0, 1}` other than `(0, 0)`. -/
def mooreOffsets : List (Int × Int) :=
  (List.product offsets offsets).filter (fun p => p ≠ (0, 0))

/-- The number of positions `(x + i, y + j)` of the Moore neighbourhood of
`(x, y)` that lie inside the grid and are alive. -/
def World.liveNeighbours (w : World) (x y : Int) : Nat :=
  mooreOffsets.countP (fun p => w.liveAt (x + p.1) (y + p.2))

/-- The rule of the game: alive in the next generation iff `n = 3`, or `n = 2`
and the cell is alive now. -/
def rule (n : Int) (alive : Bool) : Bool :=
  decide (n = 3 ∨ (n = 2 ∧ alive = true))

/-- `Update` applied `n` times in a row. -/
def World.UpdateN : Nat → World → Option World
  | 0, w => some w
  | n + 1, w => (w.Update).bind (World.UpdateN n)

/-! ## Auxiliary functions used in the proofs -/

/-- What one visit of `neighbourCount` adds to the running count. -/
def World.contrib (w : World) (x y i j : Int) : Int :=
  if i = 0 ∧ j = 0 then 0 else if w.liveAt (add64 x i) (add64 y j) then 1 else 0

/-- The value the rule gives cell `(x, y)` in the next generation. -/
def World.nextAt (w : World) (x y : Int) : Bool :=
  rule (w.liveNeighbours x y) (w.liveAt x y)

/-- The next generation as a list: cell `k` of the result is the rule applied at
`(k % width, k / width)`. -/
def World.nextArea (w : World) : List Bool :=
  (List.range w.area.length).map
    (fun k => w.nextAt ((k % w.width.toNat : Nat) : Int) ((k / w.width.toNat : Nat) : Int))

/-- The byte written for a cell. -/
def shade (live : Bool) : Nat := if live then 255 else 0

/-! ## Preconditions and sample worlds -/

/-- The shape precondition of the properties below: `width ≥ 0`, `height ≥ 0` and
`len(area) = len(buffer) = width*height`. -/
def World.Shaped (w : World) : Prop :=
  0 ≤ w.width ∧ 0 ≤ w.height ∧ (w.area.length : Int) = w.width * w.height ∧
    (w.buffer.length : Int) = w.width * w.height

/-- The length of a Go slice is an `int`, so every slice has at most `maxInt`
elements; a `List` has no such bound and the properties assume it of both slices
of the world. -/
def World.Sized (w : World) : Prop :=
  (w.area.length : Int) ≤ maxInt ∧ (w.buffer.length : Int) ≤ maxInt

instance World.decidableShaped (w : World) : Decidable w.Shaped := by
  unfold World.Shaped; infer_instance

instance World.decidableSized (w : World) : Decidable w.Sized := by
  unfold World.Sized; infer_instance

/-- A 3 x 3 world holding a vertical blinker, with a scratch slice full of `true`. -/
def blinker : World :=
  { area := [false, true, false, false, true, false, false, true, false],
    width := 3, height := 3, buffer := List.replicate 9 true }

/-- The same generation as `blinker` over a different scratch slice. -/
def blinkerClean : World :=
  { area := [false, true, false, false, true, false, false, true, false],
    width := 3, height := 3, buffer := List.replicate 9 false }

/-- The 2 x 2 world whose only live cell is `(0, 0)`. -/
def corner2 : World :=
  { area := [true, false, false, false], width := 2, height := 2,
    buffer := [false, false, false, false] }

/-- The `k`-th pair `(x, y)` that `init` draws from the generator `r` on a grid of
the given width and height: draw `2k` reduced to `[0, width)` and draw `2k + 1`
reduced to `[0, height)`. -/
def Rand.pair (r : Rand) (width height : Int) (k : Nat) : Int × Int :=
  ((r.raw (r.pos + 2 * k) : Int) % width, (r.raw (r.pos + 2 * k + 1) : Int) % height)

/-- The row-major position of the cell `p = (x, y)` in a grid of the given width. -/
def cellIndex (width : Int) (p : Int × Int) : Nat := (p.2 * width + p.1).toNat

/-- The 3 x 3 world whose only live cell is the centre `(1, 1)`, over the scratch
slice `buf`. -/
def centreOnly (buf : List Bool) : World :=
  { area := [false, false, false, false, true, false, false, false, false],
    width := 3, height := 3, buffer := buf }

/-- The 3 x 3 world whose live cells are exactly the top row `(0, 0)`, `(1, 0)`,
`(2, 0)`, over the scratch slice `buf`. -/
def topRow (buf : List Bool) : World :=
  { area := [true, true, true, false, false, false, false, false, false],
    width := 3, height := 3, buffer := buf }

/-- The 5 x 5 world holding the generation of `blinker` in its inner 3 x 3 block,
inside a ring of dead cells. -/
def blinkerPadded : World :=
  { area := [false, false, false, false, false,
             false, false, true, false, false,
             false, false, true, false, false,
             false, false, true, false, false,
             false, false, false, false, false],
    width := 5, height := 5, buffer := List.replicate 25 false }

/-- The world reflected left to right: cell `(x, y)` of the result is the cell
`(width-1-x, y)` of `w`. -/
def World.mirrorH (w : World) : World :=
  { w with area := (List.range w.area.length).map (fun k =>
      w.liveAt (w.width - 1 - ((k % w.width.toNat : Nat) : Int))
        ((k / w.width.toNat : Nat) : Int)) }

/-- The world reflected top to bottom: cell `(x, y)` of the result is the cell
`(x, height-1-y)` of `w`. -/
def World.mirrorV (w : World) : World :=
  { w with area := (List.range w.area.length).map (fun k =>
      w.liveAt ((k % w.width.toNat : Nat) : Int)
        (w.height - 1 - ((k / w.width.toNat : Nat) : Int))) }

/-- A 3 x 3 world without mirror symmetry: the cells `(0, 0)`, `(1, 0)` and
`(0, 1)` are alive. -/
def elbow : World :=
  { area := [true, true, false, true, false, false, false, false, false],
    width := 3, height := 3, buffer := List.replicate 9 false }

/-- A 4 x 4 world holding the 2 x 2 block in its far corner: the cells `(2, 2)`,
`(3, 2)`, `(2, 3)` and `(3, 3)` are alive. -/
def blockCorner : World :=
  { area := [false, false, false, false,
             false, false, false, false,
             false, false, true, true,
             false, false, true, true],
    width := 4, height := 4, buffer := List.replicate 16 true }

/-! ## Arithmetic of indices -/

theorem wrap64_eq {n : Int} (h1 : -9223372036854775808 ≤ n) (h2 : n ≤ maxInt) :
    wrap64 n = n := by
  unfold wrap64; unfold maxInt at h2; omega

theorem index_bounds {W H nx ny : Int} (hx0 : 0 ≤ nx) (hxW : nx < W) (hy0 : 0 ≤ ny)
    (hyH : ny < H) : 0 ≤ ny * W ∧ ny * W + nx < W * H := by
  have hW : 0 ≤ W := by omega
  refine ⟨mul_nonneg hy0 hW, ?_⟩
  have h1 : (ny + 1) * W ≤ H * W := mul_le_mul_of_nonneg_right (by omega) hW
  have h2 : (ny + 1) * W = ny * W + W := by ring
  have h3 : H * W = W * H := mul_comm H W
  omega

/-- Inside the grid, the index expression `ny*w.width + nx` does not wrap. -/
theorem index64 {W H nx ny : Int} {len : Nat} (hlen : (len : Int) = W * H)
    (hfit : (len : Int) ≤ maxInt) (hx0 : 0 ≤ nx) (hxW : nx < W) (hy0 : 0 ≤ ny)
    (hyH : ny < H) :
    add64 (mul64 ny W) nx = ny * W + nx ∧ 0 ≤ ny * W + nx ∧ (ny * W + nx).toNat < len := by
  obtain ⟨h1, h2⟩ := index_bounds hx0 hxW hy0 hyH
  have hm : mul64 ny W = ny * W := wrap64_eq (by omega) (by omega)
  have ha : add64 (mul64 ny W) nx = ny * W + nx := by
    rw [hm]; exact wrap64_eq (by omega) (by omega)
  exact ⟨ha, by omega, by omega⟩

theorem load_eq {α : Type} (xs : List α) {i : Int} (h : 0 ≤ i) : load xs i = xs[i.toNat]? := by
  simp [load, h]

theorem store_eq {α : Type} (xs : List α) {i : Int} (v : α) (h0 : 0 ≤ i)
    (h1 : i.toNat < xs.length) : store xs i v = some (xs.set i.toNat v) := by
  simp [store, h0, h1]

/-! ## `neighbourCount` -/

theorem neighbourVisit_eq (w : World) (hlen : (w.area.length : Int) = w.width * w.height)
    (hfit : (w.area.length : Int) ≤ maxInt) (x y j count i : Int) :
    w.neighbourVisit x y j count i = some (count + w.contrib x y i j) := by
  unfold World.neighbourVisit World.contrib
  by_cases h0 : i = 0 ∧ j = 0
  · simp [h0]
  · simp only [h0, if_false]
    by_cases hg : add64 x i ≥ 0 ∧ add64 y j ≥ 0 ∧ add64 x i < w.width ∧ add64 y j < w.height
    · obtain ⟨g1, g2, g3, g4⟩ := hg
      obtain ⟨e1, e2, e3⟩ := index64 hlen hfit g1 g3 g2 g4
      have hl : w.liveAt (add64 x i) (add64 y j)
          = (w.area[(add64 y j * w.width + add64 x i).toNat]? == some true) := by
        simp [World.liveAt, g1, g2, g3, g4]
      rw [hl, e1, load_eq _ e2, List.getElem?_eq_getElem e3]
      simp only [ge_iff_le, g1, g2, g3, g4, and_self, if_true]
      cases w.area[(add64 y j * w.width + add64 x i).toNat] <;> simp
    · have hl : w.liveAt (add64 x i) (add64 y j) = false := by
        simp only [World.liveAt, Bool.and_eq_false_imp, decide_eq_true_eq]
        intro h; exact absurd ⟨h.1, h.2.2.1, h.2.1, h.2.2.2⟩ hg
      simp [hg, hl]

theorem neighbourCount_eq (w : World) (hlen : (w.area.length : Int) = w.width * w.height)
    (hfit : (w.area.length : Int) ≤ maxInt) (x y : Int) :
    w.neighbourCount x y = some (w.contrib x y (-1) (-1) + w.contrib x y 0 (-1)
      + w.contrib x y 1 (-1) + w.contrib x y (-1) 0 + w.contrib x y 1 0
      + w.contrib x y (-1) 1 + w.contrib x y 0 1 + w.contrib x y 1 1) := by
  have h00 : w.contrib x y 0 0 = 0 := by simp [World.contrib]
  simp [World.neighbourCount, offsets, neighbourVisit_eq w hlen hfit, h00]

theorem mooreOffsets_eq :
    mooreOffsets = [(-1, -1), (-1, 0), (-1, 1), (0, -1), (0, 1), (1, -1), (1, 0), (1, 1)] := by
  decide

/-- A grid with a cell has sides no longer than its cell count. -/
theorem side_le {W H : Int} {len : Nat} (hlen : (len : Int) = W * H) {x y : Int}
    (hx : 0 ≤ x ∧ x < W) (hy : 0 ≤ y ∧ y < H) : W ≤ len ∧ H ≤ len := by
  have h1 : W * 1 ≤ W * H := mul_le_mul_of_nonneg_left (by omega) (by omega)
  have h2 : 1 * H ≤ W * H := mul_le_mul_of_nonneg_right (by omega) (by omega)
  omega

theorem contrib_inside (w : World) (hlen : (w.area.length : Int) = w.width * w.height)
    (hfit : (w.area.length : Int) ≤ maxInt) {x y : Int} (hx : 0 ≤ x ∧ x < w.width)
    (hy : 0 ≤ y ∧ y < w.height) {i j : Int} (hi : -1 ≤ i ∧ i ≤ 1) (hj : -1 ≤ j ∧ j ≤ 1)
    (hne : ¬ (i = 0 ∧ j = 0)) :
    w.contrib x y i j = if w.liveAt (x + i) (y + j) then 1 else 0 := by
  obtain ⟨s1, s2⟩ := side_le hlen hx hy
  have ex : add64 x i = x + i := wrap64_eq (by omega) (by omega)
  have ey : add64 y j = y + j := wrap64_eq (by omega) (by omega)
  simp [World.contrib, hne, ex, ey]

theorem liveNeighbours_le (w : World) (x y : Int) : w.liveNeighbours x y ≤ 8 := by
  unfold World.liveNeighbours
  exact le_trans (List.countP_le_length _) (by simp [mooreOffsets_eq])

theorem neighbourCount_inside (w : World) (hlen : (w.area.length : Int) = w.width * w.height)
    (hfit : (w.area.length : Int) ≤ maxInt) {x y : Int} (hx : 0 ≤ x ∧ x < w.width)
    (hy : 0 ≤ y ∧ y < w.height) :
    w.neighbourCount x y = some (w.liveNeighbours x y : Int) := by
  rw [neighbourCount_eq w hlen hfit]
  rw [contrib_inside w hlen hfit hx hy (i := -1) (j := -1) (by omega) (by omega) (by omega),
    contrib_inside w hlen hfit hx hy (i := 0) (j := -1) (by omega) (by omega) (by omega),
    contrib_inside w hlen hfit hx hy (i := 1) (j := -1) (by omega) (by omega) (by omega),
    contrib_inside w hlen hfit hx hy (i := -1) (j := 0) (by omega) (by omega) (by omega),
    contrib_inside w hlen hfit hx hy (i := 1) (j := 0) (by omega) (by omega) (by omega),
    contrib_inside w hlen hfit hx hy (i := -1) (j := 1) (by omega) (by omega) (by omega),
    contrib_inside w hlen hfit hx hy (i := 0) (j := 1) (by omega) (by omega) (by omega),
    contrib_inside w hlen hfit hx hy (i := 1) (j := 1) (by omega) (by omega) (by omega)]
  simp only [World.liveNeighbours, mooreOffsets_eq, List.countP_cons, List.countP_nil]
  congr 1
  push_cast
  ring

/-! ## `Update` -/

theorem liveAt_inside (w : World) (hlen : (w.area.length : Int) = w.width * w.height)
    {x y : Int} (hx : 0 ≤ x ∧ x < w.width) (hy : 0 ≤ y ∧ y < w.height) :
    w.area[(y * w.width + x).toNat]? = some (w.liveAt x y) := by
  obtain ⟨h1, h2⟩ := index_bounds hx.1 hx.2 hy.1 hy.2
  have h3 : (y * w.width + x).toNat < w.area.length := by omega
  rw [List.getElem?_eq_getElem h3]
  simp [World.liveAt, hx.1, hx.2, hy.1, hy.2, List.getElem?_eq_getElem h3]

theorem aliveNext_inside (w : World) (hlen : (w.area.length : Int) = w.width * w.height)
    {x y : Int} (hx : 0 ≤ x ∧ x < w.width) (hy : 0 ≤ y ∧ y < w.height) (n : Int) :
    w.aliveNext n (y * w.width + x) = some (rule n (w.liveAt x y)) := by
  obtain ⟨h1, h2⟩ := index_bounds hx.1 hx.2 hy.1 hy.2
  unfold World.aliveNext rule
  by_cases h3 : n = 3
  · simp [h3]
  · by_cases h4 : n = 2
    · rw [if_neg h3, if_pos h4, load_eq _ (by omega), liveAt_inside w hlen hx hy]
      simp [h4]
    · simp [h3, h4]

theorem updateCell_eq (w : World) (hlen : (w.area.length : Int) = w.width * w.height)
    (hfit : (w.area.length : Int) ≤ maxInt) (buf : List Bool)
    (hb : buf.length = w.area.length) (x y : Nat) (hx : (x : Int) < w.width)
    (hy : (y : Int) < w.height) :
    w.updateCell y buf x = some (buf.set (y * w.width.toNat + x) (w.nextAt x y)) := by
  have hx2 : (0 : Int) ≤ x ∧ (x : Int) < w.width := ⟨by omega, hx⟩
  have hy2 : (0 : Int) ≤ y ∧ (y : Int) < w.height := ⟨by omega, hy⟩
  obtain ⟨e1, e2, e3⟩ := index64 hlen hfit hx2.1 hx2.2 hy2.1 hy2.2
  have hW : ((w.width.toNat : Nat) : Int) = w.width := Int.toNat_of_nonneg (by omega)
  have hk : ((y : Int) * w.width + x).toNat = y * w.width.toNat + x := by
    have : ((y : Int) * w.width + x) = ((y * w.width.toNat + x : Nat) : Int) := by
      push_cast; rw [hW]
    rw [this]; exact Int.toNat_natCast _
  have hs1 : store buf ((y : Int) * w.width + x) false
      = some (buf.set (y * w.width.toNat + x) false) := by
    rw [store_eq buf false e2 (by omega), hk]
  have hs2 : store (buf.set (y * w.width.toNat + x) false) ((y : Int) * w.width + x) true
      = some (buf.set (y * w.width.toNat + x) true) := by
    rw [store_eq _ true e2 (by rw [List.length_set]; omega), hk, List.set_set]
  unfold World.updateCell
  simp only [e1, neighbourCount_inside w hlen hfit hx2 hy2, hs1,
    aliveNext_inside w hlen hx2 hy2, Option.bind_eq_bind, Option.some_bind, pure]
  unfold World.nextAt
  cases rule (w.liveNeighbours x y) (w.liveAt x y)
  · simp
  · simp [hs2]

theorem updateRow_prefix (w : World) (hlen : (w.area.length : Int) = w.width * w.height)
    (hfit : (w.area.length : Int) ≤ maxInt) (y : Nat) (hy : (y : Int) < w.height) (n : Nat)
    (hn : (n : Int) ≤ w.width) (buf : List Bool) (hb : buf.length = w.area.length) :
    ∃ out, (List.range n).foldlM (fun b (x : Nat) => w.updateCell y b x) buf = some out ∧
      out.length = buf.length ∧
      (∀ x, x < n → out[y * w.width.toNat + x]? = some (w.nextAt x y)) ∧
      (∀ k, k < y * w.width.toNat ∨ y * w.width.toNat + n ≤ k → out[k]? = buf[k]?) := by
  induction n with
  | zero => exact ⟨buf, by simp, rfl, by simp, by simp⟩
  | succ n ih =>
    obtain ⟨mid, h1, h2, h3, h4⟩ := ih (by omega)
    have hx : (n : Int) < w.width := by omega
    have hc := updateCell_eq w hlen hfit mid (by omega) n y hx hy
    have hx2 : (0 : Int) ≤ n ∧ (n : Int) < w.width := ⟨by omega, hx⟩
    have hy2 : (0 : Int) ≤ y ∧ (y : Int) < w.height := ⟨by omega, hy⟩
    obtain ⟨_, _, e3⟩ := index64 hlen hfit hx2.1 hx2.2 hy2.1 hy2.2
    have hW : ((w.width.toNat : Nat) : Int) = w.width := Int.toNat_of_nonneg (by omega)
    have hlt : y * w.width.toNat + n < mid.length := by
      have : ((y : Int) * w.width + n) = ((y * w.width.toNat + n : Nat) : Int) := by
        push_cast; rw [hW]
      rw [this, Int.toNat_natCast] at e3; omega
    refine ⟨mid.set (y * w.width.toNat + n) (w.nextAt n y), ?_, ?_, ?_, ?_⟩
    · rw [List.range_succ, List.foldlM_append, h1]
      simp [hc]
    · rw [List.length_set]; exact h2
    · intro x hxn
      by_cases hxe : x = n
      · subst hxe
        rw [List.getElem?_set_self hlt]
      · rw [List.getElem?_set_ne (by omega)]
        exact h3 x (by omega)
    · intro k hk
      rw [List.getElem?_set_ne (by omega)]
      exact h4 k (by omega)

theorem updateRows_prefix (w : World) (hlen : (w.area.length : Int) = w.width * w.height)
    (hfit : (w.area.length : Int) ≤ maxInt) (hW : 0 ≤ w.width) (m : Nat)
    (hm : (m : Int) ≤ w.height) (buf : List Bool) (hb : buf.length = w.area.length) :
    ∃ out, (List.range m).foldlM w.updateRow buf = some out ∧
      out.length = buf.length ∧
      (∀ y x, y < m → x < w.width.toNat →
        out[y * w.width.toNat + x]? = some (w.nextAt x y)) ∧
      (∀ k, m * w.width.toNat ≤ k → out[k]? = buf[k]?) := by
  induction m with
  | zero => exact ⟨buf, by simp, rfl, by simp, by simp⟩
  | succ m ih =>
    obtain ⟨mid, h1, h2, h3, h4⟩ := ih (by omega)
    have hWn : ((w.width.toNat : Nat) : Int) = w.width := Int.toNat_of_nonneg hW
    obtain ⟨out, r1, r2, r3, r4⟩ := updateRow_prefix w hlen hfit m (by omega)
      w.width.toNat (by omega) mid (by omega)
    have hsucc : (m + 1) * w.width.toNat = m * w.width.toNat + w.width.toNat :=
      Nat.succ_mul m _
    refine ⟨out, ?_, by omega, ?_, ?_⟩
    · rw [List.range_succ, List.foldlM_append, h1]
      simp [World.updateRow, r1]
    · intro y x hy hx
      by_cases hye : y = m
      · subst hye; exact r3 x hx
      · have hym : y + 1 ≤ m := by omega
        have hmul : (y + 1) * w.width.toNat ≤ m * w.width.toNat :=
          Nat.mul_le_mul_right _ hym
        have hs : (y + 1) * w.width.toNat = y * w.width.toNat + w.width.toNat :=
          Nat.succ_mul y _
        rw [r4 _ (Or.inl (by omega))]
        exact h3 y x (by omega) hx
    · intro k hk
      rw [r4 k (Or.inr (by omega))]
      exact h4 k (by omega)

/-- The effect of `Update` on a well-shaped world, cell by cell. -/
theorem Update_spec (w : World) (hW : 0 ≤ w.width) (hH : 0 ≤ w.height)
    (hlen : (w.area.length : Int) = w.width * w.height)
    (hbuf : (w.buffer.length : Int) = w.width * w.height)
    (hfit : (w.area.length : Int) ≤ maxInt) :
    ∃ out,
      w.Update = some { area := out, width := w.width, height := w.height, buffer := w.area } ∧
      out.length = w.area.length ∧
      (∀ y x, y < w.height.toNat → x < w.width.toNat →
        out[y * w.width.toNat + x]? = some (w.nextAt x y)) := by
  obtain ⟨out, h1, h2, h3, _⟩ := updateRows_prefix w hlen hfit hW w.height.toNat
    (by omega) w.buffer (by omega)
  refine ⟨out, ?_, by omega, h3⟩
  simp [World.Update, h1]

theorem Update_eq (w : World) (hW : 0 ≤ w.width) (hH : 0 ≤ w.height)
    (hlen : (w.area.length : Int) = w.width * w.height)
    (hbuf : (w.buffer.length : Int) = w.width * w.height)
    (hfit : (w.area.length : Int) ≤ maxInt) :
    w.Update =
      some { area := w.nextArea, width := w.width, height := w.height, buffer := w.area } := by
  obtain ⟨out, h1, h2, h3⟩ := Update_spec w hW hH hlen hbuf hfit
  rw [h1]
  have : out = w.nextArea := by
    apply List.ext_getElem?
    intro k
    by_cases hk : k < w.area.length
    · have hWn : ((w.width.toNat : Nat) : Int) = w.width := Int.toNat_of_nonneg hW
      have hHn : ((w.height.toNat : Nat) : Int) = w.height := Int.toNat_of_nonneg hH
      have hprod : w.area.length = w.width.toNat * w.height.toNat := by
        have : ((w.area.length : Nat) : Int) = ((w.width.toNat * w.height.toNat : Nat) : Int) := by
          push_cast; rw [hWn, hHn]; exact hlen
        exact_mod_cast this
      have hpos : 0 < w.width.toNat := by
        rcases Nat.eq_zero_or_pos w.width.toNat with h0 | h0
        · rw [h0, Nat.zero_mul] at hprod; omega
        · exact h0
      have hx : k % w.width.toNat < w.width.toNat := Nat.mod_lt _ hpos
      have hy : k / w.width.toNat < w.height.toNat := by
        rw [Nat.div_lt_iff_lt_mul hpos]; rw [Nat.mul_comm]; omega
      have hdm : k / w.width.toNat * w.width.toNat + k % w.width.toNat = k := by
        rw [Nat.mul_comm]; exact Nat.div_add_mod k _
      have := h3 _ _ hy hx
      rw [hdm] at this
      rw [this]
      simp [World.nextArea, hk]
    · rw [List.getElem?_eq_none (by omega), List.getElem?_eq_none]
      simp [World.nextArea]; omega
  rw [this]

/-! ## `Draw` -/

theorem drawCell_eq (pix : List Nat) (hfit : (pix.length : Int) ≤ maxInt) (n : Nat)
    (live : Bool) (hn : 4 * n + 3 < pix.length) :
    drawCell pix n live = some ((((pix.set (4 * n) (shade live)).set (4 * n + 1)
      (shade live)).set (4 * n + 2) (shade live)).set (4 * n + 3) (shade live)) := by
  have hm : mul64 (n : Int) cellSize = (n : Int) * 4 := by
    unfold mul64 cellSize; exact wrap64_eq (by omega) (by omega)
  have h1 : add64 ((n : Int) * 4) 1 = (n : Int) * 4 + 1 := wrap64_eq (by omega) (by omega)
  have h2 : add64 ((n : Int) * 4) 2 = (n : Int) * 4 + 2 := wrap64_eq (by omega) (by omega)
  have h3 : add64 ((n : Int) * 4) 3 = (n : Int) * 4 + 3 := wrap64_eq (by omega) (by omega)
  have t0 : ((n : Int) * 4).toNat = 4 * n := by omega
  have t1 : ((n : Int) * 4 + 1).toNat = 4 * n + 1 := by omega
  have t2 : ((n : Int) * 4 + 2).toNat = 4 * n + 2 := by omega
  have t3 : ((n : Int) * 4 + 3).toNat = 4 * n + 3 := by omega
  unfold drawCell
  simp only [hm, h1, h2, h3, Option.bind_eq_bind]
  rw [store_eq _ _ (by omega) (by omega)]
  simp only [Option.some_bind]
  rw [store_eq _ _ (by omega) (by rw [List.length_set]; omega)]
  simp only [Option.some_bind]
  rw [store_eq _ _ (by omega) (by rw [List.length_set, List.length_set]; omega)]
  simp only [Option.some_bind]
  rw [store_eq _ _ (by omega) (by rw [List.length_set, List.length_set, List.length_set]; omega)]
  simp only [t0, t1, t2, t3, shade]

theorem drawFrom_spec (rest : List Bool) : ∀ (n : Nat) (pix : List Nat),
    (pix.length : Int) ≤ maxInt → 4 * (n + rest.length) ≤ pix.length →
    ∃ out, drawFrom rest n pix = some out ∧ out.length = pix.length ∧
      (∀ k c, k < rest.length → c < 4 →
        out[4 * (n + k) + c]? = some (shade (rest.getD k false))) ∧
      (∀ j, j < 4 * n ∨ 4 * (n + rest.length) ≤ j → out[j]? = pix[j]?) := by
  induction rest with
  | nil => intro n pix _ _; exact ⟨pix, rfl, rfl, by simp, by simp⟩
  | cons live rest ih =>
    intro n pix hfit hlen
    simp only [List.length_cons] at hlen
    have hc := drawCell_eq pix hfit n live (by omega)
    obtain ⟨out, h1, h2, h3, h4⟩ := ih (n + 1)
      ((((pix.set (4 * n) (shade live)).set (4 * n + 1) (shade live)).set (4 * n + 2)
        (shade live)).set (4 * n + 3) (shade live))
      (by simp only [List.length_set]; exact hfit)
      (by simp only [List.length_set]; omega)
    refine ⟨out, ?_, ?_, ?_, ?_⟩
    · simp only [drawFrom, hc, Option.some_bind]
      have : ((n : Int) + 1) = ((n + 1 : Nat) : Int) := by push_cast; rfl
      rw [this]; exact h1
    · simpa using h2
    · intro k c hk hcc
      cases k with
      | zero =>
        rw [h4 _ (Or.inl (by omega))]
        simp only [Nat.add_zero, List.getD_cons_zero]
        have hc4 : c = 0 ∨ c = 1 ∨ c = 2 ∨ c = 3 := by omega
        have l0 : 4 * n < pix.length := by omega
        have l1 : 4 * n + 1 < pix.length := by omega
        have l2 : 4 * n + 2 < pix.length := by omega
        have l3 : 4 * n + 3 < pix.length := by omega
        rcases hc4 with rfl | rfl | rfl | rfl <;>
          simp [List.getElem?_set, l0, l1, l2, l3]
      | succ k =>
        have hk2 : k < rest.length := by simpa using hk
        have e : 4 * (n + (k + 1)) + c = 4 * (n + 1 + k) + c := by omega
        rw [e, List.getD_cons_succ]
        exact h3 k c hk2 hcc
    · intro j hj
      simp only [List.length_cons] at hj
      rw [h4 j (by omega)]
      rw [List.getElem?_set_ne (by omega), List.getElem?_set_ne (by omega),
        List.getElem?_set_ne (by omega), List.getElem?_set_ne (by omega)]

/-- Two byte slices of the same length with the same byte at every cell group
are equal. -/
theorem bytes_ext (len : Nat) {a b : List Nat} (ha : a.length = 4 * len)
    (hb : b.length = 4 * len)
    (h : ∀ i c, i < len → c < 4 → a[4 * i + c]? = b[4 * i + c]?) : a = b := by
  apply List.ext_getElem?
  intro j
  by_cases hj : j < 4 * len
  · have := h (j / 4) (j % 4) (by omega) (by omega)
    have e : 4 * (j / 4) + j % 4 = j := Nat.div_add_mod j 4
    rw [e] at this; exact this
  · rw [List.getElem?_eq_none (by omega), List.getElem?_eq_none (by omega)]

theorem Draw_spec (w : World) (pix : List Nat) (hlen : pix.length = 4 * w.area.length)
    (hfit : (pix.length : Int) ≤ maxInt) :
    ∃ out, w.Draw pix = some out ∧ out.length = pix.length ∧
      ∀ i c, i < w.area.length → c < 4 →
        out[4 * i + c]? = some (shade (w.area.getD i false)) := by
  obtain ⟨out, h1, h2, h3, _⟩ := drawFrom_spec w.area 0 pix hfit (by omega)
  refine ⟨out, ?_, h2, ?_⟩
  · unfold World.Draw; exact_mod_cast h1
  · intro i c hi hc
    have := h3 i c hi hc
    rw [Nat.zero_add] at this; exact this

/-! ## A single live cell at the origin -/

theorem liveNeighbours_single (w : World)
    (honly : ∀ a b, w.liveAt a b = decide (a = 0 ∧ b = 0)) (x y : Int) :
    w.liveNeighbours x y
      = if (-1 ≤ x ∧ x ≤ 1) ∧ (-1 ≤ y ∧ y ≤ 1) ∧ ¬ (x = 0 ∧ y = 0) then 1 else 0 := by
  have ex1 : (x + -1 = 0) ↔ x = 1 := by omega
  have ex2 : (x + 1 = 0) ↔ x = -1 := by omega
  have ey1 : (y + -1 = 0) ↔ y = 1 := by omega
  have ey2 : (y + 1 = 0) ↔ y = -1 := by omega
  simp only [World.liveNeighbours, mooreOffsets_eq, honly, List.countP_cons, List.countP_nil,
    ex1, ex2, ey1, ey2, add_zero, decide_eq_true_eq]
  have hx : x = -1 ∨ x = 0 ∨ x = 1 ∨ (x < -1 ∨ 1 < x) := by omega
  have hy : y = -1 ∨ y = 0 ∨ y = 1 ∨ (y < -1 ∨ 1 < y) := by omega
  rcases hx with rfl | rfl | rfl | hx
  · rcases hy with rfl | rfl | rfl | hy
    · simp
    · simp
    · simp
    · have a1 : ¬ y = 1 := by omega
      have a2 : ¬ y = -1 := by omega
      have a3 : ¬ y = 0 := by omega
      have a4 : ¬ (-1 ≤ y ∧ y ≤ 1) := by omega
      simp [a1, a2, a3, a4]
  · rcases hy with rfl | rfl | rfl | hy
    · simp
    · simp
    · simp
    · have a1 : ¬ y = 1 := by omega
      have a2 : ¬ y = -1 := by omega
      have a3 : ¬ y = 0 := by omega
      have a4 : ¬ (-1 ≤ y ∧ y ≤ 1) := by omega
      simp [a1, a2, a3, a4]
  · rcases hy with rfl | rfl | rfl | hy
    · simp
    · simp
    · simp
    · have a1 : ¬ y = 1 := by omega
      have a2 : ¬ y = -1 := by omega
      have a3 : ¬ y = 0 := by omega
      have a4 : ¬ (-1 ≤ y ∧ y ≤ 1) := by omega
      simp [a1, a2, a3, a4]
  · have b1 : ¬ x = 1 := by omega
    have b2 : ¬ x = -1 := by omega
    have b3 : ¬ x = 0 := by omega
    have b4 : ¬ (-1 ≤ x ∧ x ≤ 1) := by omega
    simp [b1, b2, b3, b4]

theorem liveAt_single (w : World) (hW : 1 ≤ w.width) (n : Nat)
    (harea : w.area = true :: List.replicate n false) (a b : Int) (hlen : (w.area.length : Int) = w.width * w.height) :
    w.liveAt a b = decide (a = 0 ∧ b = 0) := by
  by_cases hin : 0 ≤ a ∧ a < w.width ∧ 0 ≤ b ∧ b < w.height
  · obtain ⟨a0, a1, b0, b1⟩ := hin
    have hbw : b * 1 ≤ b * w.width := mul_le_mul_of_nonneg_left hW b0
    by_cases hz : a = 0 ∧ b = 0
    · obtain ⟨rfl, rfl⟩ := hz
      simp [World.liveAt, a1, b1, harea]
    · have hk : (b * w.width + a).toNat ≠ 0 := by omega
      obtain ⟨k, hk2⟩ := Nat.exists_eq_succ_of_ne_zero hk
      have : w.area[(b * w.width + a).toNat]? ≠ some true := by
        rw [hk2, harea, List.getElem?_cons_succ, List.getElem?_replicate]
        split_ifs <;> simp
      simp [World.liveAt, hz, this]
  · have hz : ¬ (a = 0 ∧ b = 0) := by
      rintro ⟨rfl, rfl⟩
      have hH : 0 < w.height := by
        rcases lt_or_ge 0 w.height with h | h
        · exact h
        · have h1 : w.width * w.height ≤ 0 := mul_nonpos_of_nonneg_of_nonpos (by omega) h
          have h2 : w.area.length = n + 1 := by rw [harea]; simp
          omega
      exact hin ⟨le_refl _, by omega, le_refl _, hH⟩
    simp [World.liveAt, hin, hz]

/-! ## `init` and `NewWorld` -/

theorem pair_inside (r : Rand) {W H : Int} (hW : 1 ≤ W) (hH : 1 ≤ H) (k : Nat) :
    (0 ≤ (r.pair W H k).1 ∧ (r.pair W H k).1 < W) ∧
      (0 ≤ (r.pair W H k).2 ∧ (r.pair W H k).2 < H) := by
  unfold Rand.pair
  exact ⟨⟨Int.emod_nonneg _ (by omega), Int.emod_lt_of_pos _ (by omega)⟩,
    ⟨Int.emod_nonneg _ (by omega), Int.emod_lt_of_pos _ (by omega)⟩⟩

theorem initStep_eq (w : World) (r : Rand) (hW : 1 ≤ w.width) (hH : 1 ≤ w.height)
    (hlen : (w.area.length : Int) = w.width * w.height)
    (hfit : (w.area.length : Int) ≤ maxInt) :
    initStep (w, r) = some
      ({ w with area := w.area.set (cellIndex w.width (r.pair w.width w.height 0)) true },
        { r with pos := r.pos + 2 }) := by
  obtain ⟨⟨x0, x1⟩, ⟨y0, y1⟩⟩ := pair_inside r hW hH 0
  obtain ⟨e1, e2, e3⟩ := index64 hlen hfit x0 x1 y0 y1
  simp only [Rand.pair, Nat.mul_zero, Nat.add_zero] at x0 x1 y0 y1 e1 e2 e3
  have hW0 : ¬ w.width ≤ 0 := by omega
  have hH0 : ¬ w.height ≤ 0 := by omega
  simp only [initStep, Rand.Intn, hW0, hH0, if_false, Option.bind_eq_bind, Option.some_bind,
    e1, store_eq _ true e2 e3, pure, cellIndex, Rand.pair, Nat.mul_zero, Nat.add_zero]

theorem store_length {α : Type} {xs ys : List α} {i : Int} {v : α}
    (h : store xs i v = some ys) : ys.length = xs.length := by
  unfold store at h
  split_ifs at h
  simp only [Option.some.injEq] at h
  rw [← h, List.length_set]

theorem initStep_frame {s t : World × Rand} (h : initStep s = some t) :
    t.1.width = s.1.width ∧ t.1.height = s.1.height ∧ t.1.buffer = s.1.buffer ∧
      t.1.area.length = s.1.area.length := by
  unfold initStep at h
  cases h1 : s.2.Intn s.1.width with
  | none => simp [h1] at h
  | some p1 =>
    cases h2 : p1.2.Intn s.1.height with
    | none => simp [h1, h2] at h
    | some p2 =>
      cases h3 : store s.1.area (add64 (mul64 p2.1 s.1.width) p1.1) true with
      | none => simp [h1, h2, h3] at h
      | some area =>
        simp [h1, h2, h3] at h
        subst h
        exact ⟨rfl, rfl, rfl, store_length h3⟩

theorem init_frame_aux (n : Nat) : ∀ (s t : World × Rand),
    (List.range n).foldlM (fun s _ => initStep s) s = some t →
    t.1.width = s.1.width ∧ t.1.height = s.1.height ∧ t.1.buffer = s.1.buffer ∧
      t.1.area.length = s.1.area.length := by
  induction n with
  | zero =>
    intro s t h
    simp at h; subst h; exact ⟨rfl, rfl, rfl, rfl⟩
  | succ n ih =>
    intro s t h
    rw [List.range_succ, List.foldlM_append] at h
    cases hm : (List.range n).foldlM (fun s _ => initStep s) s with
    | none => simp [hm] at h
    | some mid =>
      simp [hm] at h
      obtain ⟨a1, a2, a3, a4⟩ := ih s mid hm
      obtain ⟨b1, b2, b3, b4⟩ := initStep_frame h
      exact ⟨by rw [b1, a1], by rw [b2, a2], by rw [b3, a3], by rw [b4, a4]⟩

/-- Whenever `init` returns, it has changed neither the dimensions, nor the
scratch slice, nor the length of `area`. -/
theorem init_frame {w w' : World} {K : Int} {r r' : Rand} (h : w.init K r = some (w', r')) :
    w'.width = w.width ∧ w'.height = w.height ∧ w'.buffer = w.buffer ∧
      w'.area.length = w.area.length :=
  init_frame_aux K.toNat (w, r) (w', r') h

/-- The state of `init` after `n` passes through its loop. -/
theorem init_prefix (w : World) (r : Rand) (hW : 1 ≤ w.width) (hH : 1 ≤ w.height)
    (hlen : (w.area.length : Int) = w.width * w.height)
    (hfit : (w.area.length : Int) ≤ maxInt) (n : Nat) :
    ∃ area, (List.range n).foldlM (fun s _ => initStep s) (w, r)
        = some ({ w with area := area }, { r with pos := r.pos + 2 * n }) ∧
      area.length = w.area.length ∧
      ∀ k, area[k]? = some true ↔
        (w.area[k]? = some true ∨ ∃ i, i < n ∧ k = cellIndex w.width (r.pair w.width w.height i)) := by
  induction n with
  | zero => exact ⟨w.area, by simp, rfl, by simp⟩
  | succ n ih =>
    obtain ⟨mid, h1, h2, h3⟩ := ih
    have hstep := initStep_eq { w with area := mid } { r with pos := r.pos + 2 * n } hW hH
      (by simpa [h2] using hlen) (by simpa [h2] using hfit)
    have hp : Rand.pair { r with pos := r.pos + 2 * n } w.width w.height 0
        = r.pair w.width w.height n := by
      simp [Rand.pair]
    simp only [hp] at hstep
    obtain ⟨⟨x0, x1⟩, ⟨y0, y1⟩⟩ := pair_inside r hW hH n
    obtain ⟨_, _, e3⟩ := index64 hlen hfit x0 x1 y0 y1
    refine ⟨mid.set (cellIndex w.width (r.pair w.width w.height n)) true, ?_, ?_, ?_⟩
    · rw [List.range_succ, List.foldlM_append, h1]
      simp only [List.foldlM_cons, List.foldlM_nil, Option.bind_eq_bind, Option.some_bind]
      rw [hstep]
      have e : r.pos + 2 * n + 2 = r.pos + 2 * (n + 1) := by omega
      rw [e]
      rfl
    · rw [List.length_set]; exact h2
    · intro k
      by_cases hk : k = cellIndex w.width (r.pair w.width w.height n)
      · subst hk
        rw [List.getElem?_set_self (by unfold cellIndex; omega)]
        simp only [true_iff]
        exact Or.inr ⟨n, by omega, rfl⟩
      · rw [List.getElem?_set_ne (Ne.symm hk), h3 k]
        constructor
        · rintro (h | ⟨i, hi, he⟩)
          · exact Or.inl h
          · exact Or.inr ⟨i, by omega, he⟩
        · rintro (h | ⟨i, hi, he⟩)
          · exact Or.inl h
          · by_cases hin : i = n
            · subst hin; exact absurd he hk
            · exact Or.inr ⟨i, by omega, he⟩

theorem count_true_eq_card (l : List Bool) :
    l.count true = ((Finset.range l.length).filter (fun k => l[k]? = some true)).card := by
  induction l with
  | nil => simp
  | cons a l ih =>
    rw [Finset.card_filter] at ih ⊢
    rw [List.length_cons, Finset.sum_range_succ', List.count_cons, ih]
    simp

theorem cellIndex_inj {W : Int} {p q : Int × Int} (hp : 0 ≤ p.1 ∧ p.1 < W)
    (hp2 : 0 ≤ p.2) (hq : 0 ≤ q.1 ∧ q.1 < W) (hq2 : 0 ≤ q.2)
    (h : cellIndex W p = cellIndex W q) : p = q := by
  unfold cellIndex at h
  have hW : 0 ≤ W := by omega
  have h1 : 0 ≤ p.2 * W := mul_nonneg hp2 hW
  have h2 : 0 ≤ q.2 * W := mul_nonneg hq2 hW
  have e : p.2 * W + p.1 = q.2 * W + q.1 := by omega
  have m1 : (p.2 * W + p.1) % W = p.1 := by
    rw [add_comm, Int.add_mul_emod_self, Int.emod_eq_of_lt hp.1 hp.2]
  have m2 : (q.2 * W + q.1) % W = q.1 := by
    rw [add_comm, Int.add_mul_emod_self, Int.emod_eq_of_lt hq.1 hq.2]
  have ex : p.1 = q.1 := by rw [← m1, ← m2, e]
  have ey : p.2 * W = q.2 * W := by omega
  have ey2 : p.2 = q.2 := mul_right_cancel₀ (by omega) ey
  exact Prod.ext ex ey2

theorem makeBools_eq {maxAlloc n : Int} (h : 0 ≤ n) (hn : n ≤ maxAlloc) :
    makeBools maxAlloc n = some (List.replicate n.toNat false) := by
  have : ¬ (n < 0 ∨ maxAlloc < n) := by omega
  simp [makeBools, this]

theorem makeBools_none {maxAlloc n : Int} (h : n < 0 ∨ maxAlloc < n) :
    makeBools maxAlloc n = none := by
  simp [makeBools, h]

/-- `NewWorld` when the product `width*height` does not wrap and is a length the
runtime grants. -/
theorem NewWorld_eq (maxAlloc width height K : Int) (r : Rand) (hW : 0 ≤ width)
    (hH : 0 ≤ height) (hprod : width * height ≤ maxAlloc) (hlim : maxAlloc ≤ maxInt) :
    NewWorld maxAlloc width height K r
      = World.init ⟨List.replicate (width * height).toNat false, width, height,
          List.replicate (width * height).toNat false⟩ K r := by
  have h0 : 0 ≤ width * height := mul_nonneg hW hH
  have hm : mul64 width height = width * height := wrap64_eq (by omega) (by omega)
  simp [NewWorld, hm, makeBools_eq h0 hprod]

/-- When the product `width*height` does not wrap, a world that `NewWorld` returns
is the one `init` returns on two fresh slices of `width*height` dead cells. -/
theorem NewWorld_some (maxAlloc width height K : Int) (r : Rand) (hW : 0 ≤ width)
    (hH : 0 ≤ height) (hprod : width * height ≤ maxInt) {w : World} {r' : Rand}
    (h : NewWorld maxAlloc width height K r = some (w, r')) :
    World.init ⟨List.replicate (width * height).toNat false, width, height,
      List.replicate (width * height).toNat false⟩ K r = some (w, r') := by
  have h0 : 0 ≤ width * height := mul_nonneg hW hH
  have hm : mul64 width height = width * height := wrap64_eq (by omega) hprod
  by_cases hg : width * height ≤ maxAlloc
  · simpa [NewWorld, hm, makeBools_eq h0 hg] using h
  · have hnone : makeBools maxAlloc (width * height) = none :=
      makeBools_none (Or.inr (by omega))
    simp [NewWorld, hm, hnone] at h

/-- `Update` keeps a well-shaped world well-shaped and its dimensions fixed. -/
theorem Update_shaped (w : World) (hs : w.Shaped) (hf : w.Sized) :
    ∃ v, w.Update = some v ∧ v.Shaped ∧ v.Sized ∧ v.width = w.width ∧ v.height = w.height := by
  obtain ⟨hW, hH, hlen, hbuf⟩ := hs
  obtain ⟨out, h1, h2, _⟩ := Update_spec w hW hH hlen hbuf hf.1
  refine ⟨_, h1, ⟨hW, hH, ?_, hlen⟩, ⟨?_, hf.1⟩, rfl, rfl⟩
  · show (out.length : Int) = w.width * w.height
    rw [h2]; exact hlen
  · show (out.length : Int) ≤ maxInt
    rw [h2]; exact hf.1

theorem UpdateN_shaped (n : Nat) : ∀ (w : World), w.Shaped → w.Sized →
    ∃ v, w.UpdateN n = some v ∧ v.Shaped ∧ v.Sized ∧ v.width = w.width ∧
      v.height = w.height := by
  induction n with
  | zero => intro w hs hf; exact ⟨w, rfl, hs, hf, rfl, rfl⟩
  | succ n ih =>
    intro w hs hf
    obtain ⟨v, h1, h2, h3, h4, h5⟩ := Update_shaped w hs hf
    obtain ⟨u, g1, g2, g3, g4, g5⟩ := ih v h2 h3
    refine ⟨u, ?_, g2, g3, by rw [g4, h4], by rw [g5, h5]⟩
    simp [World.UpdateN, h1, g1]

/-- With no draw requested the loop of `init` does not run. -/
theorem init_zero (w : World) (r : Rand) {K : Int} (hK : K ≤ 0) : w.init K r = some (w, r) := by
  have : K.toNat = 0 := by omega
  simp [World.init, this]

/-- Any sequence of pairs inside the grid is the sequence of pairs drawn from some
generator. -/
theorem pair_realised (W H : Int) (ps : Nat → Int × Int)
    (hps : ∀ i, (0 ≤ (ps i).1 ∧ (ps i).1 < W) ∧ (0 ≤ (ps i).2 ∧ (ps i).2 < H)) :
    ∃ r : Rand, r.pos = 0 ∧ ∀ i, r.pair W H i = ps i := by
  refine ⟨⟨fun k => if k % 2 = 0 then (ps (k / 2)).1.toNat else (ps (k / 2)).2.toNat, 0⟩,
    rfl, fun i => ?_⟩
  obtain ⟨⟨a0, a1⟩, ⟨b0, b1⟩⟩ := hps i
  have e1 : (0 + 2 * i) % 2 = 0 := by omega
  have e2 : (0 + 2 * i) / 2 = i := by omega
  have e3 : ¬ (0 + 2 * i + 1) % 2 = 0 := by omega
  have e4 : (0 + 2 * i + 1) / 2 = i := by omega
  simp only [Rand.pair, e1, e2, e3, e4, if_true, if_false]
  rw [Int.toNat_of_nonneg a0, Int.toNat_of_nonneg b0, Int.emod_eq_of_lt a0 a1,
    Int.emod_eq_of_lt b0 b1]

/-! ## `Draw` on a slice that is too short -/

theorem store_none {α : Type} (xs : List α) {i : Int} (v : α) (h : xs.length ≤ i.toNat) :
    store xs i v = none := by
  unfold store
  rw [if_neg]
  omega

theorem bind_store_none {α β : Type} (xs : List α) {i : Int} (v : α)
    (f : List α → Option β) (h : xs.length ≤ i.toNat) : (store xs i v).bind f = none := by
  rw [store_none xs v h]; rfl

theorem bind_store_some {α β : Type} (xs : List α) {i : Int} (v : α)
    (f : List α → Option β) (h0 : 0 ≤ i) (h1 : i.toNat < xs.length) :
    (store xs i v).bind f = f (xs.set i.toNat v) := by
  rw [store_eq xs v h0 h1]; rfl

theorem drawCell_none (pix : List Nat) (hfit : (pix.length : Int) ≤ maxInt) (n : Nat)
    (live : Bool) (hn : 4 * n ≤ pix.length) (hshort : pix.length < 4 * n + 4) :
    drawCell pix n live = none := by
  have hm : mul64 (n : Int) cellSize = (n : Int) * 4 := by
    unfold mul64 cellSize; exact wrap64_eq (by omega) (by omega)
  unfold drawCell
  simp only [hm, Option.bind_eq_bind]
  by_cases c0 : 4 * n < pix.length
  · have h1 : add64 ((n : Int) * 4) 1 = (n : Int) * 4 + 1 := wrap64_eq (by omega) (by omega)
    rw [bind_store_some pix _ _ (by omega) (by omega), h1]
    by_cases c1 : 4 * n + 1 < pix.length
    · have h2 : add64 ((n : Int) * 4) 2 = (n : Int) * 4 + 2 := wrap64_eq (by omega) (by omega)
      have l1 : (pix.set ((n : Int) * 4).toNat (if live = true then 255 else 0)).length
          = pix.length := List.length_set _ _ _
      rw [bind_store_some _ _ _ (by omega) (by omega), h2]
      by_cases c2 : 4 * n + 2 < pix.length
      · have h3 : add64 ((n : Int) * 4) 3 = (n : Int) * 4 + 3 :=
          wrap64_eq (by omega) (by omega)
        rw [bind_store_some _ _ _ (by omega) (by rw [List.length_set]; omega), h3]
        apply store_none
        rw [List.length_set, List.length_set, List.length_set]
        omega
      · apply bind_store_none
        rw [List.length_set, List.length_set]
        omega
    · apply bind_store_none
      rw [List.length_set]
      omega
  · apply bind_store_none
    omega

theorem drawFrom_short (rest : List Bool) : ∀ (n : Nat) (pix : List Nat),
    (pix.length : Int) ≤ maxInt → 4 * n ≤ pix.length → pix.length < 4 * (n + rest.length) →
    drawFrom rest n pix = none := by
  induction rest with
  | nil => intro n pix _ h1 h2; simp at h2; omega
  | cons live rest ih =>
    intro n pix hfit h1 h2
    simp only [List.length_cons] at h2
    by_cases hc : 4 * n + 4 ≤ pix.length
    · have hcell := drawCell_eq pix hfit n live (by omega)
      have hrec := ih (n + 1)
        ((((pix.set (4 * n) (shade live)).set (4 * n + 1) (shade live)).set (4 * n + 2)
          (shade live)).set (4 * n + 3) (shade live))
        (by simp only [List.length_set]; exact hfit)
        (by simp only [List.length_set]; omega)
        (by simp only [List.length_set]; omega)
      simp only [drawFrom, hcell, Option.some_bind]
      have : ((n : Int) + 1) = ((n + 1 : Nat) : Int) := by push_cast; rfl
      rw [this]; exact hrec
    · simp only [drawFrom, drawCell_none pix hfit n live h1 (by omega), Option.none_bind]

/-! ## Cells on the border -/

/-- The live neighbours of a cell are among the offsets `keep` allows, when every
offset it rejects leads outside the grid. -/
theorem liveNeighbours_le_kept (w : World) (x y : Int) (keep : Int × Int → Bool)
    (h : ∀ p, keep p = false → w.liveAt (x + p.1) (y + p.2) = false) :
    w.liveNeighbours x y ≤ mooreOffsets.countP keep := by
  unfold World.liveNeighbours
  apply List.countP_mono_left
  intro p _ hp
  by_contra hk
  rw [h p (by simpa using hk)] at hp
  exact absurd hp (by decide)

theorem liveAt_outside (w : World) {a b : Int}
    (h : a < 0 ∨ w.width ≤ a ∨ b < 0 ∨ w.height ≤ b) : w.liveAt a b = false := by
  unfold World.liveAt
  have : ¬ (0 ≤ a ∧ a < w.width ∧ 0 ≤ b ∧ b < w.height) := by omega
  simp [this]

/-! ## The empty grid -/

theorem liveAt_dead (w : World) (hdead : ∀ b ∈ w.area, b = false) (a b : Int) :
    w.liveAt a b = false := by
  unfold World.liveAt
  cases h : w.area[(b * w.width + a).toNat]? with
  | none => simp
  | some v =>
    have := hdead v (List.getElem?_mem h)
    subst this
    simp

theorem nextAt_dead (w : World) (hdead : ∀ b ∈ w.area, b = false) (x y : Int) :
    w.nextAt x y = false := by
  have h0 : w.liveNeighbours x y = 0 := by
    unfold World.liveNeighbours
    rw [List.countP_eq_zero]
    intro p _
    rw [liveAt_dead w hdead]
    decide
  simp [World.nextAt, rule, h0, liveAt_dead w hdead]

theorem Update_dead (w : World) (hs : w.Shaped) (hf : w.Sized)
    (hdead : ∀ b ∈ w.area, b = false) :
    ∃ v, w.Update = some v ∧ v.Shaped ∧ v.Sized ∧ ∀ b ∈ v.area, b = false := by
  obtain ⟨v, h1, h2, h3, _, _⟩ := Update_shaped w hs hf
  refine ⟨v, h1, h2, h3, ?_⟩
  have e := Update_eq w hs.1 hs.2.1 hs.2.2.1 hs.2.2.2 hf.1
  rw [h1] at e
  simp only [Option.some.injEq] at e
  subst e
  intro b hb
  simp only [World.nextArea, List.mem_map] at hb
  obtain ⟨k, _, rfl⟩ := hb
  exact nextAt_dead w hdead _ _

theorem UpdateN_dead (n : Nat) : ∀ (w : World), w.Shaped → w.Sized →
    (∀ b ∈ w.area, b = false) →
    ∃ v, w.UpdateN n = some v ∧ ∀ b ∈ v.area, b = false := by
  induction n with
  | zero => intro w _ _ hdead; exact ⟨w, rfl, hdead⟩
  | succ n ih =>
    intro w hs hf hdead
    obtain ⟨v, h1, h2, h3, h4⟩ := Update_dead w hs hf hdead
    obtain ⟨u, g1, g2⟩ := ih v h2 h3 h4
    exact ⟨u, by simp [World.UpdateN, h1, g1], g2⟩

/-! ## Cells of the next generation, and padding -/

/-- After `Update`, the cell `(x, y)` of the grid holds the value the rule gives
it on the generation of before. -/
theorem Update_cells (w : World) (hs : w.Shaped) (hf : w.Sized) :
    ∃ v, w.Update = some v ∧
      ∀ x y : Int, 0 ≤ x → x < w.width → 0 ≤ y → y < w.height →
        v.area[(y * w.width + x).toNat]? = some (w.nextAt x y) := by
  obtain ⟨hW, hH, hlen, hbuf⟩ := hs
  obtain ⟨out, h1, _, h3⟩ := Update_spec w hW hH hlen hbuf hf.1
  refine ⟨_, h1, ?_⟩
  intro x y hx0 hx1 hy0 hy1
  have hxn : ((x.toNat : Nat) : Int) = x := Int.toNat_of_nonneg hx0
  have hyn : ((y.toNat : Nat) : Int) = y := Int.toNat_of_nonneg hy0
  have hWn : ((w.width.toNat : Nat) : Int) = w.width := Int.toNat_of_nonneg hW
  have hk : (y * w.width + x).toNat = y.toNat * w.width.toNat + x.toNat := by
    have : y * w.width + x = ((y.toNat * w.width.toNat + x.toNat : Nat) : Int) := by
      push_cast; rw [hxn, hyn, hWn]
    rw [this]; exact Int.toNat_natCast _
  have hcell := h3 y.toNat x.toNat (by omega) (by omega)
  rw [hxn, hyn, ← hk] at hcell
  exact hcell

theorem padded_liveAt (w p : World) (hlw : (w.area.length : Int) = w.width * w.height)
    (hlp : (p.area.length : Int) = p.width * p.height)
    (hpw : p.width = w.width + 2) (hph : p.height = w.height + 2)
    (hin : ∀ x y : Int, 0 ≤ x → x < w.width → 0 ≤ y → y < w.height →
      p.area[((y + 1) * p.width + (x + 1)).toNat]? = w.area[(y * w.width + x).toNat]?)
    (hring : ∀ x y : Int, 0 ≤ x → x < p.width → 0 ≤ y → y < p.height →
      (x = 0 ∨ x = p.width - 1 ∨ y = 0 ∨ y = p.height - 1) →
      p.area[(y * p.width + x).toNat]? = some false) (a b : Int) :
    p.liveAt (a + 1) (b + 1) = w.liveAt a b := by
  by_cases hw : (0 ≤ a ∧ a < w.width) ∧ (0 ≤ b ∧ b < w.height)
  · obtain ⟨ha, hb⟩ := hw
    have e1 := liveAt_inside p hlp (x := a + 1) (y := b + 1) (by omega) (by omega)
    have e2 := liveAt_inside w hlw ha hb
    rw [hin a b ha.1 ha.2 hb.1 hb.2, e2] at e1
    exact (Option.some.inj e1).symm
  · rw [liveAt_outside w (by omega)]
    by_cases hp : (0 ≤ a + 1 ∧ a + 1 < p.width) ∧ (0 ≤ b + 1 ∧ b + 1 < p.height)
    · obtain ⟨ha, hb⟩ := hp
      have e1 := liveAt_inside p hlp ha hb
      rw [hring (a + 1) (b + 1) ha.1 ha.2 hb.1 hb.2 (by omega)] at e1
      exact (Option.some.inj e1).symm
    · exact liveAt_outside p (by omega)

theorem padded_nextAt (w p : World) (h : ∀ a b : Int, p.liveAt (a + 1) (b + 1) = w.liveAt a b)
    (x y : Int) : p.nextAt (x + 1) (y + 1) = w.nextAt x y := by
  have hn : p.liveNeighbours (x + 1) (y + 1) = w.liveNeighbours x y := by
    unfold World.liveNeighbours
    congr 1
    funext q
    have e1 : x + 1 + q.1 = x + q.1 + 1 := by ring
    have e2 : y + 1 + q.2 = y + q.2 + 1 := by ring
    rw [e1, e2, h]
  unfold World.nextAt
  rw [hn, h]

/-! ## Grids given cell by cell, and mirror images -/

/-- Row-major decoding of an index below `W * H`. -/
theorem decode_index {W H : Nat} {k : Nat} (hk : k < W * H) :
    k % W < W ∧ k / W < H ∧ k / W * W + k % W = k := by
  have hpos : 0 < W := by
    rcases Nat.eq_zero_or_pos W with h0 | h0
    · rw [h0, Nat.zero_mul] at hk; omega
    · exact h0
  refine ⟨Nat.mod_lt _ hpos, ?_, ?_⟩
  · rw [Nat.div_lt_iff_lt_mul hpos, Nat.mul_comm]; exact hk
  · rw [Nat.mul_comm]; exact Nat.div_add_mod k W

/-- Row-major encoding of a cell of the grid. -/
theorem encode_index {W : Nat} {x y : Nat} (hx : x < W) :
    (y * W + x) % W = x ∧ (y * W + x) / W = y := by
  have hpos : 0 < W := by omega
  constructor
  · rw [Nat.add_comm, Nat.add_mul_mod_self_right, Nat.mod_eq_of_lt hx]
  · rw [Nat.add_comm, Nat.add_mul_div_right _ _ hpos, Nat.div_eq_of_lt hx, Nat.zero_add]

/-- A cell of a list given cell by cell. -/
theorem tabulated_cell (W H : Int) (hW : 0 ≤ W) (n : Nat) (hn : (n : Int) = W * H)
    (g : Int → Int → Bool) {x y : Int} (hx : 0 ≤ x ∧ x < W) (hy : 0 ≤ y ∧ y < H) :
    ((List.range n).map (fun k => g ((k % W.toNat : Nat) : Int) ((k / W.toNat : Nat) : Int)))[
      (y * W + x).toNat]? = some (g x y) := by
  obtain ⟨h1, h2⟩ := index_bounds hx.1 hx.2 hy.1 hy.2
  have hxn : ((x.toNat : Nat) : Int) = x := Int.toNat_of_nonneg hx.1
  have hyn : ((y.toNat : Nat) : Int) = y := Int.toNat_of_nonneg hy.1
  have hWn : ((W.toNat : Nat) : Int) = W := Int.toNat_of_nonneg hW
  have hk : (y * W + x).toNat = y.toNat * W.toNat + x.toNat := by
    have : y * W + x = ((y.toNat * W.toNat + x.toNat : Nat) : Int) := by
      push_cast; rw [hxn, hyn, hWn]
    rw [this]; exact Int.toNat_natCast _
  have hlt : y.toNat * W.toNat + x.toNat < n := by omega
  obtain ⟨e1, e2⟩ := encode_index (W := W.toNat) (x := x.toNat) (y := y.toNat) (by omega)
  rw [hk, List.getElem?_map, List.getElem?_range hlt]
  simp only [Option.map_some', e1, e2, hxn, hyn]

/-- A world whose `area` is given cell by cell has the given value at every cell
of the grid and no live cell outside it. -/
theorem tabulated_liveAt (u : World) (hW : 0 ≤ u.width) (n : Nat)
    (hn : (n : Int) = u.width * u.height) (g : Int → Int → Bool)
    (harea : u.area = (List.range n).map
      (fun k => g ((k % u.width.toNat : Nat) : Int) ((k / u.width.toNat : Nat) : Int)))
    (a b : Int) :
    u.liveAt a b = (decide (0 ≤ a ∧ a < u.width ∧ 0 ≤ b ∧ b < u.height) && g a b) := by
  by_cases h : 0 ≤ a ∧ a < u.width ∧ 0 ≤ b ∧ b < u.height
  · have hc := tabulated_cell u.width u.height hW n hn g ⟨h.1, h.2.1⟩ ⟨h.2.2.1, h.2.2.2⟩
    rw [← harea] at hc
    simp only [World.liveAt, h, and_self, decide_True, Bool.true_and, hc]
    cases g a b <;> simp
  · simp [World.liveAt, h]

theorem mirrorH_liveAt (w : World) (hs : w.Shaped) (a b : Int) :
    w.mirrorH.liveAt a b = w.liveAt (w.width - 1 - a) b := by
  rw [tabulated_liveAt w.mirrorH hs.1 w.area.length hs.2.2.1
    (fun x y => w.liveAt (w.width - 1 - x) y) rfl]
  by_cases h : 0 ≤ a ∧ a < w.width ∧ 0 ≤ b ∧ b < w.height
  · have : w.mirrorH.width = w.width ∧ w.mirrorH.height = w.height := ⟨rfl, rfl⟩
    simp [this.1, this.2, h]
  · have : w.mirrorH.width = w.width ∧ w.mirrorH.height = w.height := ⟨rfl, rfl⟩
    rw [liveAt_outside w (by omega)]
    simp [this.1, this.2, h]

theorem mirrorV_liveAt (w : World) (hs : w.Shaped) (a b : Int) :
    w.mirrorV.liveAt a b = w.liveAt a (w.height - 1 - b) := by
  rw [tabulated_liveAt w.mirrorV hs.1 w.area.length hs.2.2.1
    (fun x y => w.liveAt x (w.height - 1 - y)) rfl]
  by_cases h : 0 ≤ a ∧ a < w.width ∧ 0 ≤ b ∧ b < w.height
  · have : w.mirrorV.width = w.width ∧ w.mirrorV.height = w.height := ⟨rfl, rfl⟩
    simp [this.1, this.2, h]
  · have : w.mirrorV.width = w.width ∧ w.mirrorV.height = w.height := ⟨rfl, rfl⟩
    rw [liveAt_outside w (by omega)]
    simp [this.1, this.2, h]

theorem mooreOffsets_flipH :
    (mooreOffsets.map (fun q : Int × Int => (-q.1, q.2))).Perm mooreOffsets := by
  decide

theorem mooreOffsets_flipV :
    (mooreOffsets.map (fun q : Int × Int => (q.1, -q.2))).Perm mooreOffsets := by
  decide

theorem mirrorH_nextAt (w : World) (hs : w.Shaped) (x y : Int) :
    w.mirrorH.nextAt x y = w.nextAt (w.width - 1 - x) y := by
  have hn : w.mirrorH.liveNeighbours x y = w.liveNeighbours (w.width - 1 - x) y := by
    unfold World.liveNeighbours
    rw [← mooreOffsets_flipH.countP_eq, List.countP_map]
    congr 1
    funext q
    simp only [Function.comp_apply, mirrorH_liveAt w hs]
    congr 1
    ring
  unfold World.nextAt
  rw [hn, mirrorH_liveAt w hs]

theorem mirrorV_nextAt (w : World) (hs : w.Shaped) (x y : Int) :
    w.mirrorV.nextAt x y = w.nextAt x (w.height - 1 - y) := by
  have hn : w.mirrorV.liveNeighbours x y = w.liveNeighbours x (w.height - 1 - y) := by
    unfold World.liveNeighbours
    rw [← mooreOffsets_flipV.countP_eq, List.countP_map]
    congr 1
    funext q
    simp only [Function.comp_apply, mirrorV_liveAt w hs]
    congr 1
    ring
  unfold World.nextAt
  rw [hn, mirrorV_liveAt w hs]

/-- The next generation, read as a world, has the value of the rule at every cell
of the grid. -/
theorem next_liveAt (w : World) (hs : w.Shaped) (buf : List Bool) {a b : Int}
    (ha : 0 ≤ a ∧ a < w.width) (hb : 0 ≤ b ∧ b < w.height) :
    World.liveAt ⟨w.nextArea, w.width, w.height, buf⟩ a b = w.nextAt a b := by
  rw [tabulated_liveAt ⟨w.nextArea, w.width, w.height, buf⟩ hs.1 w.area.length hs.2.2.1
    (fun x y => w.nextAt x y) rfl]
  simp [ha.1, ha.2, hb.1, hb.2]

theorem mirrorH_shaped (w : World) (hs : w.Shaped) (hf : w.Sized) :
    w.mirrorH.Shaped ∧ w.mirrorH.Sized := by
  have hl : w.mirrorH.area.length = w.area.length := by simp [World.mirrorH]
  exact ⟨⟨hs.1, hs.2.1, by rw [hl]; exact hs.2.2.1, hs.2.2.2⟩, ⟨by rw [hl]; exact hf.1, hf.2⟩⟩

theorem mirrorV_shaped (w : World) (hs : w.Shaped) (hf : w.Sized) :
    w.mirrorV.Shaped ∧ w.mirrorV.Sized := by
  have hl : w.mirrorV.area.length = w.area.length := by simp [World.mirrorV]
  exact ⟨⟨hs.1, hs.2.1, by rw [hl]; exact hs.2.2.1, hs.2.2.2⟩, ⟨by rw [hl]; exact hf.1, hf.2⟩⟩

theorem nextArea_length (w : World) : w.nextArea.length = w.area.length := by
  simp [World.nextArea]

/-- Index decoding under the shape invariant, with integer bounds. -/
theorem decode_cell (w : World) (hs : w.Shaped) {k : Nat} (hk : k < w.area.length) :
    (0 ≤ ((k % w.width.toNat : Nat) : Int) ∧ ((k % w.width.toNat : Nat) : Int) < w.width) ∧
      (0 ≤ ((k / w.width.toNat : Nat) : Int) ∧ ((k / w.width.toNat : Nat) : Int) < w.height) := by
  have hWn : ((w.width.toNat : Nat) : Int) = w.width := Int.toNat_of_nonneg hs.1
  have hHn : ((w.height.toNat : Nat) : Int) = w.height := Int.toNat_of_nonneg hs.2.1
  have hprod : w.area.length = w.width.toNat * w.height.toNat := by
    have : ((w.area.length : Nat) : Int) = ((w.width.toNat * w.height.toNat : Nat) : Int) := by
      push_cast; rw [hWn, hHn]; exact hs.2.2.1
    exact_mod_cast this
  obtain ⟨d1, d2, _⟩ := decode_index (W := w.width.toNat) (H := w.height.toNat) (k := k)
    (by omega)
  exact ⟨⟨Int.ofNat_nonneg _, lt_of_lt_of_eq (Int.ofNat_lt.mpr d1) hWn⟩,
    ⟨Int.ofNat_nonneg _, lt_of_lt_of_eq (Int.ofNat_lt.mpr d2) hHn⟩⟩

/-! ## Still lifes -/

/-- A generation that the rule leaves unchanged at every cell of the grid is its
own next generation. -/
theorem nextArea_fixed (w : World) (hs : w.Shaped)
    (h : ∀ x y : Int, 0 ≤ x → x < w.width → 0 ≤ y → y < w.height →
      w.nextAt x y = w.liveAt x y) : w.nextArea = w.area := by
  apply List.ext_getElem?
  intro k
  by_cases hk : k < w.area.length
  · obtain ⟨da, db⟩ := decode_cell w hs hk
    have hWn : ((w.width.toNat : Nat) : Int) = w.width := Int.toNat_of_nonneg hs.1
    have hHn : ((w.height.toNat : Nat) : Int) = w.height := Int.toNat_of_nonneg hs.2.1
    have hprod : w.area.length = w.width.toNat * w.height.toNat := by
      have : ((w.area.length : Nat) : Int)
          = ((w.width.toNat * w.height.toNat : Nat) : Int) := by
        push_cast; rw [hWn, hHn]; exact hs.2.2.1
      exact_mod_cast this
    obtain ⟨_, _, d3⟩ := decode_index (W := w.width.toNat) (H := w.height.toNat) (k := k)
      (by omega)
    have e := liveAt_inside w hs.2.2.1 da db
    have hidx : (((k / w.width.toNat : Nat) : Int) * w.width
        + ((k % w.width.toNat : Nat) : Int)).toNat = k := by
      have : ((k / w.width.toNat : Nat) : Int) * w.width + ((k % w.width.toNat : Nat) : Int)
          = ((k / w.width.toNat * w.width.toNat + k % w.width.toNat : Nat) : Int) := by
        rw [Nat.cast_add, Nat.cast_mul, hWn]
      rw [this, Int.toNat_natCast, d3]
    rw [hidx] at e
    rw [e, ← h _ _ da.1 da.2 db.1 db.2]
    simp [World.nextArea, hk]
  · rw [List.getElem?_eq_none (by rw [nextArea_length]; omega),
      List.getElem?_eq_none (by omega)]

/-- The number of cells of a 2 x 2 block among the neighbours of the cell at
offset `(dx, dy)` from the block's first cell: 3 for a cell of the block, and
never 3 for any other cell. -/
theorem block_neighbours (dx dy : Int) :
    ((0 ≤ dx ∧ dx ≤ 1) ∧ (0 ≤ dy ∧ dy ≤ 1) →
        mooreOffsets.countP (fun q => decide ((0 ≤ dx + q.1 ∧ dx + q.1 ≤ 1) ∧
          (0 ≤ dy + q.2 ∧ dy + q.2 ≤ 1))) = 3) ∧
      (¬ ((0 ≤ dx ∧ dx ≤ 1) ∧ (0 ≤ dy ∧ dy ≤ 1)) →
        mooreOffsets.countP (fun q => decide ((0 ≤ dx + q.1 ∧ dx + q.1 ≤ 1) ∧
          (0 ≤ dy + q.2 ∧ dy + q.2 ≤ 1))) ≠ 3) := by
  by_cases hfar : dx < -1 ∨ 2 < dx ∨ dy < -1 ∨ 2 < dy
  · have hz : mooreOffsets.countP (fun q => decide ((0 ≤ dx + q.1 ∧ dx + q.1 ≤ 1) ∧
        (0 ≤ dy + q.2 ∧ dy + q.2 ≤ 1))) = 0 := by
      rw [List.countP_eq_zero]
      intro q hq
      rw [mooreOffsets_eq] at hq
      simp only [List.mem_cons, List.mem_singleton, List.not_mem_nil, or_false] at hq
      simp only [decide_eq_true_eq]
      rcases hq with rfl | rfl | rfl | rfl | rfl | rfl | rfl | rfl <;> simp only <;> omega
    rw [hz]
    exact ⟨fun h => by omega, fun _ => by decide⟩
  · have hx : dx = -1 ∨ dx = 0 ∨ dx = 1 ∨ dx = 2 := by omega
    have hy : dy = -1 ∨ dy = 0 ∨ dy = 1 ∨ dy = 2 := by omega
    rcases hx with rfl | rfl | rfl | rfl <;> rcases hy with rfl | rfl | rfl | rfl <;> decide


/-! ## The properties -/

/-- C1: on a well-shaped world, for every cell `(x, y)` of the grid, `Update`
returns, and the new `area[y*width+x]` is true iff `n = 3`, or `n = 2` and the cell
was alive before, where `n` is `neighbourCount(x, y)` on the world before the call
and the old cell value is read from the world before the call. -/
theorem Update_applies_rule (w : World) (hs : w.Shaped) (hf : w.Sized) (x y : Int)
    (hx : 0 ≤ x ∧ x < w.width) (hy : 0 ≤ y ∧ y < w.height) :
    ∃ w' n alive next, w.Update = some w' ∧ w.neighbourCount x y = some n ∧
      w.area[(y * w.width + x).toNat]? = some alive ∧
      w'.area[(y * w.width + x).toNat]? = some next ∧
      (next = true ↔ n = 3 ∨ (n = 2 ∧ alive = true)) := by
  obtain ⟨hW, hH, hlen, hbuf⟩ := hs
  obtain ⟨out, h1, _, h3⟩ := Update_spec w hW hH hlen hbuf hf.1
  have hxn : ((x.toNat : Nat) : Int) = x := Int.toNat_of_nonneg hx.1
  have hyn : ((y.toNat : Nat) : Int) = y := Int.toNat_of_nonneg hy.1
  have hWn : ((w.width.toNat : Nat) : Int) = w.width := Int.toNat_of_nonneg hW
  have hk : (y * w.width + x).toNat = y.toNat * w.width.toNat + x.toNat := by
    have : y * w.width + x = ((y.toNat * w.width.toNat + x.toNat : Nat) : Int) := by
      push_cast; rw [hxn, hyn, hWn]
    rw [this]; exact Int.toNat_natCast _
  have hcell := h3 y.toNat x.toNat (by omega) (by omega)
  rw [hxn, hyn, ← hk] at hcell
  refine ⟨_, w.liveNeighbours x y, w.liveAt x y, w.nextAt x y, h1,
    neighbourCount_inside w hlen hf.1 hx hy, liveAt_inside w hlen hx hy, hcell, ?_⟩
  simp [World.nextAt, rule]

/-- Witness of C1: the centre cell of the blinker. -/
theorem Update_applies_rule_witness :
    ∃ w' n alive next, blinker.Update = some w' ∧ blinker.neighbourCount 1 1 = some n ∧
      blinker.area[((1 : Int) * blinker.width + 1).toNat]? = some alive ∧
      w'.area[((1 : Int) * blinker.width + 1).toNat]? = some next ∧
      (next = true ↔ n = 3 ∨ (n = 2 ∧ alive = true)) :=
  Update_applies_rule blinker (by decide) (by decide) 1 1 (by decide) (by decide)

/-- C2: when `len(area) = width*height`, for every cell `(x, y)` of the grid
`neighbourCount(x, y)` returns a number between 0 and 8 that is the number of
offsets `(i, j)`, `i, j ∈ {-1, 0, 1}`, `(i, j) ≠ (0, 0)`, for which `(x+i, y+j)`
lies inside the grid and is alive. -/
theorem neighbourCount_counts_moore (w : World)
    (hlen : (w.area.length : Int) = w.width * w.height)
    (hfit : (w.area.length : Int) ≤ maxInt) (x y : Int)
    (hx : 0 ≤ x ∧ x < w.width) (hy : 0 ≤ y ∧ y < w.height) :
    ∃ n : Int, w.neighbourCount x y = some n ∧ 0 ≤ n ∧ n ≤ 8 ∧
      n = (mooreOffsets.countP (fun p => w.liveAt (x + p.1) (y + p.2)) : Nat) := by
  refine ⟨_, neighbourCount_inside w hlen hfit hx hy, by omega, ?_, rfl⟩
  have := liveNeighbours_le w x y
  omega

/-- Witness of C2: the corner `(0, 0)` of the blinker. -/
theorem neighbourCount_counts_moore_witness :
    ∃ n : Int, blinker.neighbourCount 0 0 = some n ∧ 0 ≤ n ∧ n ≤ 8 ∧
      n = (mooreOffsets.countP (fun p => blinker.liveAt (0 + p.1) (0 + p.2)) : Nat) :=
  neighbourCount_counts_moore blinker (by decide) (by decide) 0 0 (by decide) (by decide)

/-- C3: two well-shaped worlds with the same width, height and `area` have the
same `area` after one `Update`, whatever their scratch slices held. -/
theorem Update_ignores_scratch (w1 w2 : World) (hs1 : w1.Shaped) (hs2 : w2.Shaped)
    (hf1 : w1.Sized) (hf2 : w2.Sized) (hw : w1.width = w2.width)
    (hh : w1.height = w2.height) (ha : w1.area = w2.area) :
    ∃ v1 v2, w1.Update = some v1 ∧ w2.Update = some v2 ∧ v1.area = v2.area := by
  refine ⟨_, _, Update_eq w1 hs1.1 hs1.2.1 hs1.2.2.1 hs1.2.2.2 hf1.1,
    Update_eq w2 hs2.1 hs2.2.1 hs2.2.2.1 hs2.2.2.2 hf2.1, ?_⟩
  simp [World.nextArea, World.nextAt, World.liveNeighbours, World.liveAt, hw, hh, ha]

/-- Witness of C3: the blinker over two different scratch slices. -/
theorem Update_ignores_scratch_witness :
    blinker.buffer ≠ blinkerClean.buffer ∧
      ∃ v1 v2, blinker.Update = some v1 ∧ blinkerClean.Update = some v2 ∧
        v1.area = v2.area :=
  ⟨by decide, Update_ignores_scratch blinker blinkerClean (by decide) (by decide)
    (by decide) (by decide) (by decide) (by decide) (by decide)⟩

/-- C4: when `len(pix) = 4*len(area)`, `Draw(pix)` returns, keeps the length of
`pix`, and for every cell index `i` the bytes `4i .. 4i+3` of the result are all
255 if `area[i]` is true and all 0 if it is false; the result is the same for
every other slice of that length; and when only cell 0 is alive the result is
`255, 255, 255, 255` followed by zeros. -/
theorem Draw_writes_every_cell (w : World) (pix : List Nat)
    (hlen : pix.length = 4 * w.area.length) (hfit : (pix.length : Int) ≤ maxInt) :
    ∃ out, w.Draw pix = some out ∧ out.length = pix.length ∧
      (∀ i c, i < w.area.length → c < 4 →
        out[4 * i + c]? = some (if w.area[i]? = some true then 255 else 0)) ∧
      (∀ other : List Nat, other.length = pix.length → w.Draw other = some out) ∧
      (∀ m, w.area = true :: List.replicate m false →
        out = [255, 255, 255, 255] ++ List.replicate (4 * m) 0) := by
  obtain ⟨out, h1, h2, h3⟩ := Draw_spec w pix hlen hfit
  have hcell : ∀ i c, i < w.area.length → c < 4 →
      out[4 * i + c]? = some (if w.area[i]? = some true then 255 else 0) := by
    intro i c hi hc
    rw [h3 i c hi hc, List.getD_eq_getElem?_getD, List.getElem?_eq_getElem hi]
    cases w.area[i] <;> simp [shade]
  refine ⟨out, h1, h2, hcell, ?_, ?_⟩
  · intro other ho
    obtain ⟨out2, g1, g2, g3⟩ := Draw_spec w other (by omega) (by omega)
    rw [g1]
    congr 1
    apply bytes_ext w.area.length (by omega) (by omega)
    intro i c hi hc
    rw [g3 i c hi hc, h3 i c hi hc]
  · intro m hm
    have hal : w.area.length = m + 1 := by rw [hm]; simp
    apply bytes_ext (m + 1) (by omega) (by simp; omega)
    intro i c hi hc
    rw [hcell i c (by omega) hc, hm]
    cases i with
    | zero =>
      have hc4 : c = 0 ∨ c = 1 ∨ c = 2 ∨ c = 3 := by omega
      rcases hc4 with rfl | rfl | rfl | rfl <;> simp
    | succ i =>
      have hi2 : i < m := by omega
      rw [List.getElem?_append_right (by simp; omega)]
      simp only [List.getElem?_cons_succ, List.getElem?_replicate, hi2, if_true]
      have : 4 * (i + 1) + c - 4 < 4 * m := by omega
      simp [this]

/-- Witness of C4: the 2 x 2 world whose only live cell is `(0, 0)`, drawn over a
slice of sixteen arbitrary bytes. -/
theorem Draw_writes_every_cell_witness :
    ∃ out, corner2.Draw (List.replicate 16 7) = some out ∧
      out.length = (List.replicate 16 7).length ∧
      (∀ i c, i < corner2.area.length → c < 4 →
        out[4 * i + c]? = some (if corner2.area[i]? = some true then 255 else 0)) ∧
      (∀ other : List Nat, other.length = (List.replicate 16 7).length →
        corner2.Draw other = some out) ∧
      (∀ m, corner2.area = true :: List.replicate m false →
        out = [255, 255, 255, 255] ++ List.replicate (4 * m) 0) :=
  Draw_writes_every_cell corner2 (List.replicate 16 7) (by decide) (by decide)

/-- C5, amended: on a grid with `width ≥ 1` and `height ≥ 1` whose only live cell
is `(0, 0)`, `neighbourCount(width-1, height-1)` is 0 unless `width ≤ 2` and
`height ≤ 2` on a grid larger than 1 x 1, `neighbourCount(0, height-1)` is 0 unless
`height = 2`, and `neighbourCount(width-1, 0)` is 0 unless `width = 2`; in the
excepted cases the named cell is adjacent to `(0, 0)` and the count is 1. -/
theorem noWrap_unless_adjacent (w : World) (hW : 1 ≤ w.width) (hH : 1 ≤ w.height)
    (hlen : (w.area.length : Int) = w.width * w.height)
    (hfit : (w.area.length : Int) ≤ maxInt) (n : Nat)
    (harea : w.area = true :: List.replicate n false) :
    w.neighbourCount (w.width - 1) (w.height - 1)
        = some (if w.width ≤ 2 ∧ w.height ≤ 2 ∧ ¬ (w.width = 1 ∧ w.height = 1) then 1 else 0) ∧
      w.neighbourCount 0 (w.height - 1) = some (if w.height = 2 then 1 else 0) ∧
      w.neighbourCount (w.width - 1) 0 = some (if w.width = 2 then 1 else 0) := by
  have honly := fun a b => liveAt_single w hW n harea a b hlen
  refine ⟨?_, ?_, ?_⟩
  · rw [neighbourCount_inside w hlen hfit (by omega) (by omega),
      liveNeighbours_single w honly]
    congr 1
    split_ifs <;> first | rfl | omega
  · rw [neighbourCount_inside w hlen hfit (by omega) (by omega),
      liveNeighbours_single w honly]
    congr 1
    split_ifs <;> first | rfl | omega
  · rw [neighbourCount_inside w hlen hfit (by omega) (by omega),
      liveNeighbours_single w honly]
    congr 1
    split_ifs <;> first | rfl | omega

/-- Witness of the amended C5: a 3 x 3 grid whose only live cell is `(0, 0)`; all
three counts are 0. -/
theorem noWrap_unless_adjacent_witness :
    World.neighbourCount ⟨true :: List.replicate 8 false, 3, 3, []⟩ (3 - 1) (3 - 1) = some 0 ∧
      World.neighbourCount ⟨true :: List.replicate 8 false, 3, 3, []⟩ 0 (3 - 1) = some 0 ∧
      World.neighbourCount ⟨true :: List.replicate 8 false, 3, 3, []⟩ (3 - 1) 0 = some 0 :=
  noWrap_unless_adjacent ⟨true :: List.replicate 8 false, 3, 3, []⟩ (by decide) (by decide)
    (by decide) (by decide) 8 rfl

/-- Counterexample to C5 as stated: on the 2 x 2 grid whose only live cell is
`(0, 0)`, each of `(width-1, height-1)`, `(0, height-1)` and `(width-1, 0)` has
neighbour count 1, not 0. -/
theorem noWrap_fails_on_2x2 :
    corner2.area = [true, false, false, false] ∧ corner2.width = 2 ∧ corner2.height = 2 ∧
      corner2.neighbourCount (corner2.width - 1) (corner2.height - 1) = some 1 ∧
      corner2.neighbourCount 0 (corner2.height - 1) = some 1 ∧
      corner2.neighbourCount (corner2.width - 1) 0 = some 1 := by
  decide

/-- C6: on a well-shaped world `Update` returns (no indexing panics), and
`neighbourCount` returns at any integer arguments `(x, y)`; every index
`ny*width + nx` formed from a position that passed the bounds test, as computed
in 64-bit arithmetic, lies in `[0, width*height)`. -/
theorem Update_neighbourCount_total (w : World) (hs : w.Shaped) (hf : w.Sized) :
    (∃ w', w.Update = some w') ∧
      (∀ x y : Int, ∃ n, w.neighbourCount x y = some n) ∧
      (∀ nx ny : Int, 0 ≤ nx → nx < w.width → 0 ≤ ny → ny < w.height →
        0 ≤ add64 (mul64 ny w.width) nx ∧
          add64 (mul64 ny w.width) nx < w.width * w.height) := by
  obtain ⟨hW, hH, hlen, hbuf⟩ := hs
  refine ⟨⟨_, Update_eq w hW hH hlen hbuf hf.1⟩,
    fun x y => ⟨_, neighbourCount_eq w hlen hf.1 x y⟩, ?_⟩
  intro nx ny h1 h2 h3 h4
  obtain ⟨e1, e2, e3⟩ := index64 hlen hf.1 h1 h2 h3 h4
  rw [e1]
  exact ⟨e2, by omega⟩

/-- Witness of C6: the blinker. -/
theorem Update_neighbourCount_total_witness :
    (∃ w', blinker.Update = some w') ∧
      (∀ x y : Int, ∃ n, blinker.neighbourCount x y = some n) ∧
      (∀ nx ny : Int, 0 ≤ nx → nx < blinker.width → 0 ≤ ny → ny < blinker.height →
        0 ≤ add64 (mul64 ny blinker.width) nx ∧
          add64 (mul64 ny blinker.width) nx < blinker.width * blinker.height) :=
  Update_neighbourCount_total blinker (by decide) (by decide)

/-- C7: on a well-shaped world `Update` returns a world whose `buffer` is the
`area` of before, whose `width` and `height` are unchanged, and whose `area` has
the same length and holds, at every cell of the grid, the value the rule gives
that cell on the generation of before. -/
theorem Update_swaps_buffers (w : World) (hs : w.Shaped) (hf : w.Sized) :
    ∃ w', w.Update = some w' ∧ w'.buffer = w.area ∧ w'.width = w.width ∧
      w'.height = w.height ∧ w'.area.length = w.area.length ∧
      ∀ x y : Int, 0 ≤ x → x < w.width → 0 ≤ y → y < w.height →
        w'.area[(y * w.width + x).toNat]?
          = some (rule (w.liveNeighbours x y) (w.liveAt x y)) := by
  obtain ⟨hW, hH, hlen, hbuf⟩ := hs
  obtain ⟨out, h1, h2, h3⟩ := Update_spec w hW hH hlen hbuf hf.1
  refine ⟨_, h1, rfl, rfl, rfl, h2, ?_⟩
  intro x y hx0 hx1 hy0 hy1
  have hxn : ((x.toNat : Nat) : Int) = x := Int.toNat_of_nonneg hx0
  have hyn : ((y.toNat : Nat) : Int) = y := Int.toNat_of_nonneg hy0
  have hWn : ((w.width.toNat : Nat) : Int) = w.width := Int.toNat_of_nonneg hW
  have hk : (y * w.width + x).toNat = y.toNat * w.width.toNat + x.toNat := by
    have : y * w.width + x = ((y.toNat * w.width.toNat + x.toNat : Nat) : Int) := by
      push_cast; rw [hxn, hyn, hWn]
    rw [this]; exact Int.toNat_natCast _
  have hcell := h3 y.toNat x.toNat (by omega) (by omega)
  rw [hxn, hyn, ← hk] at hcell
  exact hcell

/-- Witness of C7: the blinker, whose scratch slice held nine `true` values. -/
theorem Update_swaps_buffers_witness :
    ∃ w', blinker.Update = some w' ∧ w'.buffer = blinker.area ∧ w'.width = blinker.width ∧
      w'.height = blinker.height ∧ w'.area.length = blinker.area.length ∧
      ∀ x y : Int, 0 ≤ x → x < blinker.width → 0 ≤ y → y < blinker.height →
        w'.area[(y * blinker.width + x).toNat]?
          = some (rule (blinker.liveNeighbours x y) (blinker.liveAt x y)) :=
  Update_swaps_buffers blinker (by decide) (by decide)

/-- C8, amended: for `width, height ≥ 0` whose product does not exceed the largest
`int`, a world returned by `NewWorld` has `len(area) = len(buffer) = width*height`
and the requested dimensions, and after any number of `Update`s it still has that
shape and those dimensions; and one `Update` of any well-shaped world returns a
well-shaped world of the same width and height. -/
theorem shape_invariant (maxAlloc width height K : Int) (r : Rand) (hW : 0 ≤ width)
    (hH : 0 ≤ height) (hprod : width * height ≤ maxInt) :
    (∀ w r', NewWorld maxAlloc width height K r = some (w, r') →
        w.Shaped ∧ w.width = width ∧ w.height = height ∧
        ∀ n, ∃ v, w.UpdateN n = some v ∧ v.Shaped ∧ v.width = width ∧ v.height = height) ∧
      (∀ w : World, w.Shaped → w.Sized →
        ∃ v, w.Update = some v ∧ v.Shaped ∧ v.width = w.width ∧ v.height = w.height) := by
  have h0 : 0 ≤ width * height := mul_nonneg hW hH
  have hl : ((List.replicate (width * height).toNat false).length : Int) = width * height := by
    rw [List.length_replicate]; exact Int.toNat_of_nonneg h0
  refine ⟨?_, ?_⟩
  · intro w r' h
    obtain ⟨f1, f2, f3, f4⟩ := init_frame (NewWorld_some maxAlloc width height K r hW hH hprod h)
    simp only at f1 f2 f3 f4
    have hs : w.Shaped := ⟨by rw [f1]; exact hW, by rw [f2]; exact hH,
      by rw [f4, f1, f2]; exact hl, by rw [f3, f1, f2]; exact hl⟩
    have hf : w.Sized := ⟨by rw [f4, hl]; exact hprod, by rw [f3, hl]; exact hprod⟩
    refine ⟨hs, f1, f2, fun n => ?_⟩
    obtain ⟨v, g1, g2, _, g4, g5⟩ := UpdateN_shaped n w hs hf
    exact ⟨v, g1, g2, by rw [g4, f1], by rw [g5, f2]⟩
  · intro w hs hf
    obtain ⟨v, g1, g2, _, g4, g5⟩ := Update_shaped w hs hf
    exact ⟨v, g1, g2, g4, g5⟩

/-- Witness of the amended C8: a 3 x 2 world with four draws, which `NewWorld`
does return under the allocation limit of linux/amd64. -/
theorem shape_invariant_witness :
    (∃ w r', NewWorld maxAllocAmd64 3 2 4 ⟨fun k => 7 * k + 1, 0⟩ = some (w, r')) ∧
      (∀ w r', NewWorld maxAllocAmd64 3 2 4 ⟨fun k => 7 * k + 1, 0⟩ = some (w, r') →
        w.Shaped ∧ w.width = 3 ∧ w.height = 2 ∧
        ∀ n, ∃ v, w.UpdateN n = some v ∧ v.Shaped ∧ v.width = 3 ∧ v.height = 2) ∧
      (∀ w : World, w.Shaped → w.Sized →
        ∃ v, w.Update = some v ∧ v.Shaped ∧ v.width = w.width ∧ v.height = w.height) :=
  ⟨⟨_, _, rfl⟩,
    shape_invariant maxAllocAmd64 3 2 4 ⟨fun k => 7 * k + 1, 0⟩ (by decide) (by decide)
      (by decide)⟩

/-- Counterexample to C8 as stated: for `width = height = 2^32` the product wraps
to 0 in 64-bit arithmetic, so `NewWorld` returns a world with empty slices and
both dimensions `2^32`, and `len(area) = width*height` fails. -/
theorem NewWorld_shape_fails_on_wrap :
    ∃ w r', NewWorld maxAllocAmd64 4294967296 4294967296 0 ⟨fun _ => 0, 0⟩ = some (w, r') ∧
      (0 : Int) ≤ 4294967296 ∧ w.area.length = 0 ∧ w.width * w.height ≠ 0 ∧ ¬ w.Shaped :=
  ⟨⟨[], 4294967296, 4294967296, []⟩, ⟨fun _ => 0, 0⟩, rfl, by decide, rfl, by decide,
    by decide⟩

/-- C9: on an all-dead grid with `width, height ≥ 1`, `init` with `K` draws
returns; it has consumed `2K` values of the generator and drawn the pairs
`(x_i, y_i) = r.pair width height i`, `i < K`, each inside the grid; afterwards a
cell `(x, y)` of the grid is alive iff it equals some drawn pair; the number of
live cells is the number of distinct drawn pairs, is at most `K`, and is less
than `K` exactly when two draws gave the same pair. -/
theorem init_marks_drawn_cells (w : World) (r : Rand) (K : Nat) (hW : 1 ≤ w.width)
    (hH : 1 ≤ w.height) (hlen : (w.area.length : Int) = w.width * w.height)
    (hfit : (w.area.length : Int) ≤ maxInt) (hdead : ∀ b ∈ w.area, b = false) :
    ∃ w' r', w.init K r = some (w', r') ∧ r'.pos = r.pos + 2 * K ∧
      w'.width = w.width ∧ w'.height = w.height ∧
      (∀ i, (0 ≤ (r.pair w.width w.height i).1 ∧ (r.pair w.width w.height i).1 < w.width) ∧
        (0 ≤ (r.pair w.width w.height i).2 ∧ (r.pair w.width w.height i).2 < w.height)) ∧
      (∀ x y : Int, 0 ≤ x → x < w.width → 0 ≤ y → y < w.height →
        (w'.liveAt x y = true ↔ ∃ i, i < K ∧ r.pair w.width w.height i = (x, y))) ∧
      w'.area.count true = ((Finset.range K).image (r.pair w.width w.height)).card ∧
      w'.area.count true ≤ K ∧
      (w'.area.count true < K ↔
        ∃ i j, i < j ∧ j < K ∧ r.pair w.width w.height i = r.pair w.width w.height j) := by
  obtain ⟨area, h1, h2, h3⟩ := init_prefix w r hW hH hlen hfit K
  have hnone : ∀ k : Nat, ¬ w.area[k]? = some true := by
    intro k hk
    have hm := List.getElem?_mem hk
    exact absurd (hdead true hm) (by decide)
  have hlive : ∀ k : Nat, area[k]? = some true ↔
      ∃ i, i < K ∧ k = cellIndex w.width (r.pair w.width w.height i) := by
    intro k; rw [h3 k]; simp [hnone k]
  have hin := pair_inside r hW hH
  have hinj : Set.InjOn (cellIndex w.width)
      ((Finset.range K).image (r.pair w.width w.height) : Finset (Int × Int)) := by
    intro p hp q hq hpq
    simp only [Finset.coe_image, Set.mem_image, Finset.mem_coe, Finset.mem_range] at hp hq
    obtain ⟨i, _, rfl⟩ := hp
    obtain ⟨j, _, rfl⟩ := hq
    exact cellIndex_inj (hin i).1 (hin i).2.1 (hin j).1 (hin j).2.1 hpq
  have hcount : area.count true
      = ((Finset.range K).image (r.pair w.width w.height)).card := by
    rw [count_true_eq_card, ← Finset.card_image_of_injOn hinj]
    congr 1
    ext k
    simp only [Finset.mem_filter, Finset.mem_range, Finset.mem_image]
    constructor
    · rintro ⟨_, hk⟩
      obtain ⟨i, hi, he⟩ := (hlive k).1 hk
      exact ⟨_, ⟨i, hi, rfl⟩, he.symm⟩
    · rintro ⟨p, ⟨i, hi, rfl⟩, he⟩
      have hk : area[k]? = some true := (hlive k).2 ⟨i, hi, he.symm⟩
      refine ⟨?_, hk⟩
      by_contra hge
      rw [List.getElem?_eq_none (by omega)] at hk
      exact absurd hk (by simp)
  have hle : ((Finset.range K).image (r.pair w.width w.height)).card ≤ K := by
    have := Finset.card_image_le (s := Finset.range K) (f := r.pair w.width w.height)
    simpa using this
  refine ⟨{ w with area := area }, { r with pos := r.pos + 2 * K }, ?_, rfl, rfl, rfl, hin, ?_,
    hcount, ?_, ?_⟩
  · simpa [World.init] using h1
  · intro x y hx0 hx1 hy0 hy1
    have hl : (World.liveAt { w with area := area } x y = true) ↔
        area[cellIndex w.width (x, y)]? = some true := by
      simp [World.liveAt, cellIndex, hx0, hx1, hy0, hy1]
    rw [hl, hlive]
    constructor
    · rintro ⟨i, hi, he⟩
      exact ⟨i, hi, (cellIndex_inj ⟨hx0, hx1⟩ hy0 (hin i).1 (hin i).2.1 he).symm⟩
    · rintro ⟨i, hi, he⟩
      exact ⟨i, hi, by rw [he]⟩
  · show area.count true ≤ K
    rw [hcount]; exact hle
  · show area.count true < K ↔ _
    rw [hcount]
    constructor
    · intro hlt
      by_contra hno
      have hinj2 : Set.InjOn (r.pair w.width w.height) (Finset.range K : Finset Nat) := by
        intro i hi j hj hij
        simp only [Finset.coe_range, Set.mem_Iio] at hi hj
        by_contra hne
        rcases Nat.lt_or_gt_of_ne hne with h | h
        · exact hno ⟨i, j, h, hj, hij⟩
        · exact hno ⟨j, i, h, hi, hij.symm⟩
      have := Finset.card_image_of_injOn hinj2
      rw [Finset.card_range] at this
      omega
    · rintro ⟨i, j, hij, hj, he⟩
      have hsub : (Finset.range K).image (r.pair w.width w.height)
          ⊆ ((Finset.range K).erase j).image (r.pair w.width w.height) := by
        intro p hp
        simp only [Finset.mem_image, Finset.mem_range, Finset.mem_erase] at hp ⊢
        obtain ⟨a, ha, rfl⟩ := hp
        by_cases haj : a = j
        · subst haj; exact ⟨i, ⟨by omega, by omega⟩, he⟩
        · exact ⟨a, ⟨haj, ha⟩, rfl⟩
      have h1 := Finset.card_le_card hsub
      have h2 := Finset.card_image_le (s := (Finset.range K).erase j)
        (f := r.pair w.width w.height)
      have h3 : ((Finset.range K).erase j).card = K - 1 := by
        rw [Finset.card_erase_of_mem (by simp; omega), Finset.card_range]
      omega

/-- Witness of C9: four draws on an all-dead 3 x 2 grid, the pair `(1, 0)` being
drawn twice. -/
theorem init_marks_drawn_cells_witness :
    ∃ w' r', World.init ⟨List.replicate 6 false, 3, 2, List.replicate 6 false⟩ (4 : Nat)
        ⟨fun k => 7 * k + 1, 0⟩ = some (w', r') ∧
      r'.pos = 0 + 2 * 4 ∧ w'.width = 3 ∧ w'.height = 2 ∧
      (∀ i, (0 ≤ (Rand.pair ⟨fun k => 7 * k + 1, 0⟩ 3 2 i).1 ∧
          (Rand.pair ⟨fun k => 7 * k + 1, 0⟩ 3 2 i).1 < 3) ∧
        (0 ≤ (Rand.pair ⟨fun k => 7 * k + 1, 0⟩ 3 2 i).2 ∧
          (Rand.pair ⟨fun k => 7 * k + 1, 0⟩ 3 2 i).2 < 2)) ∧
      (∀ x y : Int, 0 ≤ x → x < 3 → 0 ≤ y → y < 2 →
        (w'.liveAt x y = true ↔
          ∃ i, i < 4 ∧ Rand.pair ⟨fun k => 7 * k + 1, 0⟩ 3 2 i = (x, y))) ∧
      w'.area.count true
        = ((Finset.range 4).image (Rand.pair ⟨fun k => 7 * k + 1, 0⟩ 3 2)).card ∧
      w'.area.count true ≤ 4 ∧
      (w'.area.count true < 4 ↔
        ∃ i j, i < j ∧ j < 4 ∧
          Rand.pair ⟨fun k => 7 * k + 1, 0⟩ 3 2 i = Rand.pair ⟨fun k => 7 * k + 1, 0⟩ 3 2 j) :=
  init_marks_drawn_cells ⟨List.replicate 6 false, 3, 2, List.replicate 6 false⟩
    ⟨fun k => 7 * k + 1, 0⟩ 4 (by decide) (by decide) (by decide) (by decide) (by decide)

/-- C10, amended: for `width, height ≥ 0` whose product `width*height` is a length
the runtime grants (it does not exceed `maxAlloc`, which is itself at most the
largest `int`), `NewWorld(width, height, 0)` returns a world of those dimensions in
which every cell of `area` and of `buffer` is dead, both slices having
`width*height` cells, and the generator is returned as it was given. -/
theorem NewWorld_zero_all_dead (maxAlloc width height : Int) (r : Rand) (hW : 0 ≤ width)
    (hH : 0 ≤ height) (hprod : width * height ≤ maxAlloc) (hlim : maxAlloc ≤ maxInt) :
    ∃ w, NewWorld maxAlloc width height 0 r = some (w, r) ∧ w.width = width ∧
      w.height = height ∧
      (∀ b ∈ w.area, b = false) ∧ (∀ b ∈ w.buffer, b = false) ∧
      (w.area.length : Int) = width * height ∧ (w.buffer.length : Int) = width * height := by
  have h0 : 0 ≤ width * height := mul_nonneg hW hH
  have hl : ((List.replicate (width * height).toNat false).length : Int) = width * height := by
    rw [List.length_replicate]; exact Int.toNat_of_nonneg h0
  refine ⟨⟨List.replicate (width * height).toNat false, width, height,
    List.replicate (width * height).toNat false⟩, ?_, rfl, rfl, ?_, ?_, hl, hl⟩
  · rw [NewWorld_eq maxAlloc width height 0 r hW hH hprod hlim]
    exact init_zero _ r (le_refl 0)
  · intro b hb; exact (List.mem_replicate.1 hb).2
  · intro b hb; exact (List.mem_replicate.1 hb).2

/-- Witness of the amended C10: a 3 x 2 world under the allocation limit of
linux/amd64. -/
theorem NewWorld_zero_all_dead_witness :
    ∃ w, NewWorld maxAllocAmd64 3 2 0 ⟨fun k => 7 * k + 1, 5⟩
        = some (w, ⟨fun k => 7 * k + 1, 5⟩) ∧
      w.width = 3 ∧ w.height = 2 ∧
      (∀ b ∈ w.area, b = false) ∧ (∀ b ∈ w.buffer, b = false) ∧
      (w.area.length : Int) = 3 * 2 ∧ (w.buffer.length : Int) = 3 * 2 :=
  NewWorld_zero_all_dead maxAllocAmd64 3 2 ⟨fun k => 7 * k + 1, 5⟩ (by decide) (by decide)
    (by decide) (by decide)

/-- Counterexample to C10 as stated: for `width = 2^32` and `height = 2^31` the
product wraps to `-2^63`, `make` panics on the negative length, and `NewWorld`
returns no world; and for `width = height = 2^31` the product `2^62` exceeds the
allocation limit of linux/amd64, `make` panics again, and `NewWorld` returns no
world. -/
theorem NewWorld_zero_panics_on_wrap :
    (0 : Int) ≤ 4294967296 ∧ (0 : Int) ≤ 2147483648 ∧
      mul64 4294967296 2147483648 = -9223372036854775808 ∧
      NewWorld maxAllocAmd64 4294967296 2147483648 0 ⟨fun _ => 0, 0⟩ = none ∧
      mul64 2147483648 2147483648 = 4611686018427387904 ∧
      NewWorld maxAllocAmd64 2147483648 2147483648 0 ⟨fun _ => 0, 0⟩ = none :=
  ⟨by decide, by decide, by decide, rfl, by decide, rfl⟩

/-- C11: on the 3 x 3 grid whose only live cell is the centre `(1, 1)`, whatever
the scratch slice of nine cells holds, `neighbourCount(1, 1)` is 0 and one
`Update` returns the world whose nine cells are all dead. -/
theorem centre_cell_dies (buf : List Bool) (hbuf : buf.length = 9) :
    (centreOnly buf).neighbourCount 1 1 = some 0 ∧
      ∃ w', (centreOnly buf).Update = some w' ∧ w'.width = 3 ∧ w'.height = 3 ∧
        w'.area = [false, false, false, false, false, false, false, false, false] := by
  have hb : ((centreOnly buf).buffer.length : Int)
      = (centreOnly buf).width * (centreOnly buf).height := by
    show (buf.length : Int) = 3 * 3
    rw [hbuf]; rfl
  have hnext : (centreOnly buf).nextArea = (centreOnly []).nextArea := rfl
  refine ⟨rfl, _, Update_eq (centreOnly buf) (by show (0 : Int) ≤ 3; decide)
    (by show (0 : Int) ≤ 3; decide) rfl hb (by show (9 : Int) ≤ maxInt; decide), rfl, rfl, ?_⟩
  show (centreOnly buf).nextArea = _
  rw [hnext]; decide

/-- Witness of C11: a scratch slice of nine `true` values. -/
theorem centre_cell_dies_witness :
    (centreOnly (List.replicate 9 true)).neighbourCount 1 1 = some 0 ∧
      ∃ w', (centreOnly (List.replicate 9 true)).Update = some w' ∧ w'.width = 3 ∧
        w'.height = 3 ∧
        w'.area = [false, false, false, false, false, false, false, false, false] :=
  centre_cell_dies (List.replicate 9 true) (by decide)

/-- C12: on the 3 x 3 grid whose live cells are exactly the top row, whatever the
scratch slice of nine cells holds, the neighbour counts are 1, 2, 1 on the top
row, 2, 3, 2 on the middle row and 0, 0, 0 on the bottom row, and one `Update`
returns the world in which exactly `(1, 0)` and `(1, 1)` are alive. -/
theorem top_row_step (buf : List Bool) (hbuf : buf.length = 9) :
    ((topRow buf).neighbourCount 0 0 = some 1 ∧ (topRow buf).neighbourCount 1 0 = some 2 ∧
        (topRow buf).neighbourCount 2 0 = some 1) ∧
      ((topRow buf).neighbourCount 0 1 = some 2 ∧ (topRow buf).neighbourCount 1 1 = some 3 ∧
        (topRow buf).neighbourCount 2 1 = some 2) ∧
      ((topRow buf).neighbourCount 0 2 = some 0 ∧ (topRow buf).neighbourCount 1 2 = some 0 ∧
        (topRow buf).neighbourCount 2 2 = some 0) ∧
      ∃ w', (topRow buf).Update = some w' ∧ w'.width = 3 ∧ w'.height = 3 ∧
        w'.area = [false, true, false, false, true, false, false, false, false] := by
  have hb : ((topRow buf).buffer.length : Int) = (topRow buf).width * (topRow buf).height := by
    show (buf.length : Int) = 3 * 3
    rw [hbuf]; rfl
  have hnext : (topRow buf).nextArea = (topRow []).nextArea := rfl
  refine ⟨⟨rfl, rfl, rfl⟩, ⟨rfl, rfl, rfl⟩, ⟨rfl, rfl, rfl⟩, _,
    Update_eq (topRow buf) (by show (0 : Int) ≤ 3; decide) (by show (0 : Int) ≤ 3; decide) rfl hb
      (by show (9 : Int) ≤ maxInt; decide), rfl, rfl, ?_⟩
  show (topRow buf).nextArea = _
  rw [hnext]; decide

/-- Witness of C12: a scratch slice of nine `true` values. -/
theorem top_row_step_witness :
    ((topRow (List.replicate 9 true)).neighbourCount 0 0 = some 1 ∧
        (topRow (List.replicate 9 true)).neighbourCount 1 0 = some 2 ∧
        (topRow (List.replicate 9 true)).neighbourCount 2 0 = some 1) ∧
      ((topRow (List.replicate 9 true)).neighbourCount 0 1 = some 2 ∧
        (topRow (List.replicate 9 true)).neighbourCount 1 1 = some 3 ∧
        (topRow (List.replicate 9 true)).neighbourCount 2 1 = some 2) ∧
      ((topRow (List.replicate 9 true)).neighbourCount 0 2 = some 0 ∧
        (topRow (List.replicate 9 true)).neighbourCount 1 2 = some 0 ∧
        (topRow (List.replicate 9 true)).neighbourCount 2 2 = some 0) ∧
      ∃ w', (topRow (List.replicate 9 true)).Update = some w' ∧ w'.width = 3 ∧
        w'.height = 3 ∧
        w'.area = [false, true, false, false, true, false, false, false, false] :=
  top_row_step (List.replicate 9 true) (by decide)

/-- C13, amended: `Draw(pix)` fails with an out-of-range index exactly when `pix`
is shorter than `width*height*4`; on a slice at least that long, and so also on a
longer one, it completes normally, keeps the length, writes the bytes of every
cell and leaves the bytes from `4*len(area)` on as they were. -/
theorem Draw_fails_iff_short (w : World) (pix : List Nat)
    (hlen : (w.area.length : Int) = w.width * w.height)
    (hfit : (pix.length : Int) ≤ maxInt) :
    (w.Draw pix = none ↔ (pix.length : Int) < w.width * w.height * 4) ∧
      (w.width * w.height * 4 ≤ (pix.length : Int) →
        ∃ out, w.Draw pix = some out ∧ out.length = pix.length ∧
          (∀ i c, i < w.area.length → c < 4 →
            out[4 * i + c]? = some (if w.area[i]? = some true then 255 else 0)) ∧
          (∀ j, 4 * w.area.length ≤ j → out[j]? = pix[j]?)) := by
  have hlong : w.width * w.height * 4 ≤ (pix.length : Int) →
      ∃ out, w.Draw pix = some out ∧ out.length = pix.length ∧
        (∀ i c, i < w.area.length → c < 4 →
          out[4 * i + c]? = some (if w.area[i]? = some true then 255 else 0)) ∧
        (∀ j, 4 * w.area.length ≤ j → out[j]? = pix[j]?) := by
    intro h
    obtain ⟨out, h1, h2, h3, h4⟩ := drawFrom_spec w.area 0 pix hfit (by omega)
    refine ⟨out, by unfold World.Draw; exact_mod_cast h1, h2, ?_, ?_⟩
    · intro i c hi hc
      have := h3 i c hi hc
      rw [Nat.zero_add] at this
      rw [this, List.getD_eq_getElem?_getD, List.getElem?_eq_getElem hi]
      cases w.area[i] <;> simp [shade]
    · intro j hj
      exact h4 j (Or.inr (by omega))
  refine ⟨⟨?_, ?_⟩, hlong⟩
  · intro hnone
    by_contra hge
    obtain ⟨out, h1, _⟩ := hlong (by omega)
    rw [hnone] at h1
    exact absurd h1 (by simp)
  · intro hshort
    have := drawFrom_short w.area 0 pix hfit (by omega) (by omega)
    unfold World.Draw; exact_mod_cast this

/-- Witness of the amended C13: the 2 x 2 world drawn over twenty bytes. -/
theorem Draw_fails_iff_short_witness :
    (corner2.Draw (List.replicate 20 7) = none ↔
        ((List.replicate 20 7).length : Int) < corner2.width * corner2.height * 4) ∧
      (corner2.width * corner2.height * 4 ≤ ((List.replicate 20 7).length : Int) →
        ∃ out, corner2.Draw (List.replicate 20 7) = some out ∧
          out.length = (List.replicate 20 7).length ∧
          (∀ i c, i < corner2.area.length → c < 4 →
            out[4 * i + c]? = some (if corner2.area[i]? = some true then 255 else 0)) ∧
          (∀ j, 4 * corner2.area.length ≤ j → out[j]? = (List.replicate 20 7)[j]?)) :=
  Draw_fails_iff_short corner2 (List.replicate 20 7) (by decide) (by decide)

/-- Counterexample to C13 as stated: on the 2 x 2 world a slice of twenty bytes,
four more than `width*height*4`, is drawn without failure; the sixteen bytes of the
cells are written and the last four are left as they were. -/
theorem Draw_completes_on_longer_slice :
    ((List.replicate 20 7).length : Int) ≠ corner2.width * corner2.height * 4 ∧
      corner2.Draw (List.replicate 20 7)
        = some [255, 255, 255, 255, 0, 0, 0, 0, 0, 0, 0, 0, 0, 0, 0, 0, 7, 7, 7, 7] := by
  decide

/-- C14: when `len(area) = width*height`, for every cell `(x, y)` of the grid
`neighbourCount(x, y)` returns a number that is at most 5 if the cell lies on the
border (`x = 0`, `x = width-1`, `y = 0` or `y = height-1`) and at most 3 if it is
a corner (`x ∈ {0, width-1}` and `y ∈ {0, height-1}`). -/
theorem neighbourCount_border (w : World)
    (hlen : (w.area.length : Int) = w.width * w.height)
    (hfit : (w.area.length : Int) ≤ maxInt) (x y : Int)
    (hx : 0 ≤ x ∧ x < w.width) (hy : 0 ≤ y ∧ y < w.height) :
    ∃ n : Int, w.neighbourCount x y = some n ∧
      ((x = 0 ∨ x = w.width - 1 ∨ y = 0 ∨ y = w.height - 1) → n ≤ 5) ∧
      (((x = 0 ∨ x = w.width - 1) ∧ (y = 0 ∨ y = w.height - 1)) → n ≤ 3) := by
  refine ⟨_, neighbourCount_inside w hlen hfit hx hy, ?_, ?_⟩
  · intro hb
    have key : w.liveNeighbours x y ≤ 5 := by
      rcases hb with h | h | h | h
      · refine le_trans (liveNeighbours_le_kept w x y (fun p => decide (p.1 ≠ -1)) ?_) (by decide)
        intro p hp
        have : p.1 = -1 := by simpa using hp
        exact liveAt_outside w (by omega)
      · refine le_trans (liveNeighbours_le_kept w x y (fun p => decide (p.1 ≠ 1)) ?_) (by decide)
        intro p hp
        have : p.1 = 1 := by simpa using hp
        exact liveAt_outside w (by omega)
      · refine le_trans (liveNeighbours_le_kept w x y (fun p => decide (p.2 ≠ -1)) ?_) (by decide)
        intro p hp
        have : p.2 = -1 := by simpa using hp
        exact liveAt_outside w (by omega)
      · refine le_trans (liveNeighbours_le_kept w x y (fun p => decide (p.2 ≠ 1)) ?_) (by decide)
        intro p hp
        have : p.2 = 1 := by simpa using hp
        exact liveAt_outside w (by omega)
    exact_mod_cast key
  · rintro ⟨hbx, hby⟩
    have key : w.liveNeighbours x y ≤ 3 := by
      rcases hbx with h | h <;> rcases hby with g | g
      · refine le_trans (liveNeighbours_le_kept w x y
          (fun p => decide (p.1 ≠ -1 ∧ p.2 ≠ -1)) ?_) (by decide)
        intro p hp
        have : p.1 = -1 ∨ p.2 = -1 := by
          simp only [decide_eq_false_iff_not] at hp; omega
        exact liveAt_outside w (by omega)
      · refine le_trans (liveNeighbours_le_kept w x y
          (fun p => decide (p.1 ≠ -1 ∧ p.2 ≠ 1)) ?_) (by decide)
        intro p hp
        have : p.1 = -1 ∨ p.2 = 1 := by
          simp only [decide_eq_false_iff_not] at hp; omega
        exact liveAt_outside w (by omega)
      · refine le_trans (liveNeighbours_le_kept w x y
          (fun p => decide (p.1 ≠ 1 ∧ p.2 ≠ -1)) ?_) (by decide)
        intro p hp
        have : p.1 = 1 ∨ p.2 = -1 := by
          simp only [decide_eq_false_iff_not] at hp; omega
        exact liveAt_outside w (by omega)
      · refine le_trans (liveNeighbours_le_kept w x y
          (fun p => decide (p.1 ≠ 1 ∧ p.2 ≠ 1)) ?_) (by decide)
        intro p hp
        have : p.1 = 1 ∨ p.2 = 1 := by
          simp only [decide_eq_false_iff_not] at hp; omega
        exact liveAt_outside w (by omega)
    exact_mod_cast key

/-- Witness of C14: the corner `(2, 0)` of the blinker. -/
theorem neighbourCount_border_witness :
    ∃ n : Int, blinker.neighbourCount 2 0 = some n ∧
      (((2 : Int) = 0 ∨ (2 : Int) = blinker.width - 1 ∨ (0 : Int) = 0 ∨
        (0 : Int) = blinker.height - 1) → n ≤ 5) ∧
      ((((2 : Int) = 0 ∨ (2 : Int) = blinker.width - 1) ∧
        ((0 : Int) = 0 ∨ (0 : Int) = blinker.height - 1)) → n ≤ 3) :=
  neighbourCount_border blinker (by decide) (by decide) 2 0 (by decide) (by decide)

/-- C15: let `w` be a well-shaped world and `p` a well-shaped world of width
`w.width + 2` and height `w.height + 2` whose cell `(x+1, y+1)` equals the cell
`(x, y)` of `w` for every cell of `w`, and whose outer ring is dead.  Then both
`Update`s return, and afterwards the cell `(x+1, y+1)` of `p` and the cell `(x, y)`
of `w` hold the same value, for every cell `(x, y)` of `w`. -/
theorem padded_step_agrees (w p : World) (hsw : w.Shaped) (hfw : w.Sized) (hsp : p.Shaped)
    (hfp : p.Sized) (hpw : p.width = w.width + 2) (hph : p.height = w.height + 2)
    (hin : ∀ x y : Int, 0 ≤ x → x < w.width → 0 ≤ y → y < w.height →
      p.area[((y + 1) * p.width + (x + 1)).toNat]? = w.area[(y * w.width + x).toNat]?)
    (hring : ∀ x y : Int, 0 ≤ x → x < p.width → 0 ≤ y → y < p.height →
      (x = 0 ∨ x = p.width - 1 ∨ y = 0 ∨ y = p.height - 1) →
      p.area[(y * p.width + x).toNat]? = some false) :
    ∃ w' p', w.Update = some w' ∧ p.Update = some p' ∧
      ∀ x y : Int, 0 ≤ x → x < w.width → 0 ≤ y → y < w.height →
        ∃ v, w'.area[(y * w.width + x).toNat]? = some v ∧
          p'.area[((y + 1) * p.width + (x + 1)).toNat]? = some v := by
  obtain ⟨w', h1, h2⟩ := Update_cells w hsw hfw
  obtain ⟨p', g1, g2⟩ := Update_cells p hsp hfp
  have hl := padded_liveAt w p hsw.2.2.1 hsp.2.2.1 hpw hph hin hring
  refine ⟨w', p', h1, g1, ?_⟩
  intro x y hx0 hx1 hy0 hy1
  refine ⟨w.nextAt x y, h2 x y hx0 hx1 hy0 hy1, ?_⟩
  rw [g2 (x + 1) (y + 1) (by omega) (by omega) (by omega) (by omega),
    padded_nextAt w p hl]

/-- Witness of C15: the blinker and the 5 x 5 world that holds it inside a dead
ring. -/
theorem padded_step_agrees_witness :
    ∃ w' p', blinker.Update = some w' ∧ blinkerPadded.Update = some p' ∧
      ∀ x y : Int, 0 ≤ x → x < blinker.width → 0 ≤ y → y < blinker.height →
        ∃ v, w'.area[(y * blinker.width + x).toNat]? = some v ∧
          p'.area[((y + 1) * blinkerPadded.width + (x + 1)).toNat]? = some v :=
  padded_step_agrees blinker blinkerPadded (by decide) (by decide) (by decide) (by decide)
    (by decide) (by decide)
    (by
      intro x y hx0 hx1 hy0 hy1
      have hw : blinker.width = 3 := rfl
      have hh : blinker.height = 3 := rfl
      have hx : x = 0 ∨ x = 1 ∨ x = 2 := by omega
      have hy : y = 0 ∨ y = 1 ∨ y = 2 := by omega
      rcases hx with rfl | rfl | rfl <;> rcases hy with rfl | rfl | rfl <;> rfl)
    (by
      intro x y hx0 hx1 hy0 hy1 hr
      have hw : blinkerPadded.width = 5 := rfl
      have hh : blinkerPadded.height = 5 := rfl
      have hx : x = 0 ∨ x = 1 ∨ x = 2 ∨ x = 3 ∨ x = 4 := by omega
      have hy : y = 0 ∨ y = 1 ∨ y = 2 ∨ y = 3 ∨ y = 4 := by omega
      rcases hx with rfl | rfl | rfl | rfl | rfl <;>
        rcases hy with rfl | rfl | rfl | rfl | rfl <;>
        first | rfl | (exfalso; omega))

/-- C16: on a well-shaped world `Update` commutes with both mirror images: `Update`
of the world reflected left to right returns the `area` that reflecting the result
of `Update` gives, and likewise for the reflection top to bottom.  The reflections
are those of the claim: cell `(x, y)` of `mirrorH` is cell `(width-1-x, y)` of the
world, and cell `(x, y)` of `mirrorV` is cell `(x, height-1-y)`. -/
theorem Update_commutes_with_mirrors (w : World) (hs : w.Shaped) (hf : w.Sized) :
    (∀ x y : Int, 0 ≤ x → x < w.width → 0 ≤ y → y < w.height →
        w.mirrorH.area[(y * w.width + x).toNat]?
            = w.area[(y * w.width + (w.width - 1 - x)).toNat]? ∧
          w.mirrorV.area[(y * w.width + x).toNat]?
            = w.area[((w.height - 1 - y) * w.width + x).toNat]?) ∧
      ∃ v, w.Update = some v ∧
        (∃ u, w.mirrorH.Update = some u ∧ u.area = v.mirrorH.area) ∧
        (∃ u, w.mirrorV.Update = some u ∧ u.area = v.mirrorV.area) := by
  obtain ⟨hsH, hfH⟩ := mirrorH_shaped w hs hf
  obtain ⟨hsV, hfV⟩ := mirrorV_shaped w hs hf
  refine ⟨?_, _, Update_eq w hs.1 hs.2.1 hs.2.2.1 hs.2.2.2 hf.1,
    ⟨_, Update_eq w.mirrorH hsH.1 hsH.2.1 hsH.2.2.1 hsH.2.2.2 hfH.1, ?_⟩,
    ⟨_, Update_eq w.mirrorV hsV.1 hsV.2.1 hsV.2.2.1 hsV.2.2.2 hfV.1, ?_⟩⟩
  · intro x y hx0 hx1 hy0 hy1
    constructor
    · have e1 := liveAt_inside w.mirrorH hsH.2.2.1 (x := x) (y := y) ⟨hx0, hx1⟩ ⟨hy0, hy1⟩
      have e2 := liveAt_inside w hs.2.2.1 (x := w.width - 1 - x) (y := y) (by omega)
        ⟨hy0, hy1⟩
      have e3 : w.mirrorH.width = w.width := rfl
      rw [e3] at e1
      rw [e1, e2, mirrorH_liveAt w hs]
    · have e1 := liveAt_inside w.mirrorV hsV.2.2.1 (x := x) (y := y) ⟨hx0, hx1⟩ ⟨hy0, hy1⟩
      have e2 := liveAt_inside w hs.2.2.1 (x := x) (y := w.height - 1 - y) ⟨hx0, hx1⟩
        (by omega)
      have e3 : w.mirrorV.width = w.width := rfl
      rw [e3] at e1
      rw [e1, e2, mirrorV_liveAt w hs]
  · show w.mirrorH.nextArea = (World.mirrorH _).area
    have hl : w.mirrorH.area.length = w.area.length := by simp [World.mirrorH]
    simp only [World.nextArea, World.mirrorH, List.length_map, List.length_range]
    apply List.map_congr_left
    intro k hk
    have hk2 : k < w.area.length := by simpa using hk
    obtain ⟨da, db⟩ := decode_cell w hs hk2
    have := mirrorH_nextAt w hs ((k % w.width.toNat : Nat) : Int) ((k / w.width.toNat : Nat) : Int)
    simp only [World.mirrorH] at this
    rw [this]
    exact (next_liveAt w hs w.area (by omega) db).symm
  · show w.mirrorV.nextArea = (World.mirrorV _).area
    simp only [World.nextArea, World.mirrorV, List.length_map, List.length_range]
    apply List.map_congr_left
    intro k hk
    have hk2 : k < w.area.length := by simpa using hk
    obtain ⟨da, db⟩ := decode_cell w hs hk2
    have := mirrorV_nextAt w hs ((k % w.width.toNat : Nat) : Int) ((k / w.width.toNat : Nat) : Int)
    simp only [World.mirrorV] at this
    rw [this]
    exact (next_liveAt w hs w.area da (by omega)).symm

/-- Witness of C16: a 3 x 3 world without mirror symmetry. -/
theorem Update_commutes_with_mirrors_witness :
    (∀ x y : Int, 0 ≤ x → x < elbow.width → 0 ≤ y → y < elbow.height →
        elbow.mirrorH.area[(y * elbow.width + x).toNat]?
            = elbow.area[(y * elbow.width + (elbow.width - 1 - x)).toNat]? ∧
          elbow.mirrorV.area[(y * elbow.width + x).toNat]?
            = elbow.area[((elbow.height - 1 - y) * elbow.width + x).toNat]?) ∧
      ∃ v, elbow.Update = some v ∧
        (∃ u, elbow.mirrorH.Update = some u ∧ u.area = v.mirrorH.area) ∧
        (∃ u, elbow.mirrorV.Update = some u ∧ u.area = v.mirrorV.area) :=
  Update_commutes_with_mirrors elbow (by decide) (by decide)

/-- C17: on a well-shaped world with `width ≥ 2` and `height ≥ 2`, if for some
`0 ≤ x0 ≤ width-2` and `0 ≤ y0 ≤ height-2` exactly the four cells `(x0, y0)`,
`(x0+1, y0)`, `(x0, y0+1)`, `(x0+1, y0+1)` are alive, then `Update` returns a world
with the same `area`. -/
theorem block_is_still_life (w : World) (hs : w.Shaped) (hf : w.Sized) (_hW : 2 ≤ w.width)
    (_hH : 2 ≤ w.height) (x0 y0 : Int) (hx0 : 0 ≤ x0 ∧ x0 ≤ w.width - 2)
    (hy0 : 0 ≤ y0 ∧ y0 ≤ w.height - 2)
    (hblock : ∀ x y : Int, 0 ≤ x → x < w.width → 0 ≤ y → y < w.height →
      w.area[(y * w.width + x).toNat]?
        = some (decide ((x = x0 ∨ x = x0 + 1) ∧ (y = y0 ∨ y = y0 + 1)))) :
    ∃ v, w.Update = some v ∧ v.area = w.area := by
  have hlive : ∀ a b : Int, w.liveAt a b
      = decide ((0 ≤ a - x0 ∧ a - x0 ≤ 1) ∧ (0 ≤ b - y0 ∧ b - y0 ≤ 1)) := by
    intro a b
    by_cases hin : (0 ≤ a ∧ a < w.width) ∧ (0 ≤ b ∧ b < w.height)
    · have e := liveAt_inside w hs.2.2.1 hin.1 hin.2
      rw [hblock a b hin.1.1 hin.1.2 hin.2.1 hin.2.2] at e
      rw [← Option.some.inj e]
      apply decide_eq_decide.mpr
      omega
    · rw [liveAt_outside w (by omega)]
      symm
      apply decide_eq_false
      omega
  have hfix : ∀ x y : Int, 0 ≤ x → x < w.width → 0 ≤ y → y < w.height →
      w.nextAt x y = w.liveAt x y := by
    intro x y _ _ _ _
    have hn : w.liveNeighbours x y = mooreOffsets.countP (fun q =>
        decide ((0 ≤ x - x0 + q.1 ∧ x - x0 + q.1 ≤ 1) ∧
          (0 ≤ y - y0 + q.2 ∧ y - y0 + q.2 ≤ 1))) := by
      unfold World.liveNeighbours
      congr 1
      funext q
      rw [hlive]
      apply decide_eq_decide.mpr
      omega
    obtain ⟨b1, b2⟩ := block_neighbours (x - x0) (y - y0)
    unfold World.nextAt rule
    rw [hlive x y, hn]
    by_cases hb : (0 ≤ x - x0 ∧ x - x0 ≤ 1) ∧ (0 ≤ y - y0 ∧ y - y0 ≤ 1)
    · rw [b1 hb, decide_eq_true hb]
      exact decide_eq_true (Or.inl rfl)
    · rw [decide_eq_false hb]
      apply decide_eq_false
      rintro (h | ⟨_, h⟩)
      · exact b2 hb (by exact_mod_cast h)
      · exact absurd h (by decide)
  refine ⟨_, Update_eq w hs.1 hs.2.1 hs.2.2.1 hs.2.2.2 hf.1, ?_⟩
  exact nextArea_fixed w hs hfix

/-- Witness of C17: the block in the far corner of a 4 x 4 world, against two
borders. -/
theorem block_is_still_life_witness :
    ∃ v, blockCorner.Update = some v ∧ v.area = blockCorner.area :=
  block_is_still_life blockCorner (by decide) (by decide) (by decide) (by decide) 2 2
    (by decide) (by decide)
    (by
      intro x y hx0 hx1 hy0 hy1
      have hw : blockCorner.width = 4 := rfl
      have hh : blockCorner.height = 4 := rfl
      have hx : x = 0 ∨ x = 1 ∨ x = 2 ∨ x = 3 := by omega
      have hy : y = 0 ∨ y = 1 ∨ y = 2 ∨ y = 3 := by omega
      rcases hx with rfl | rfl | rfl | rfl <;> rcases hy with rfl | rfl | rfl | rfl <;> rfl)

/-- C18: on a well-shaped world whose `area` has no live cell, whatever the
scratch slice holds, one `Update` returns a world whose `area` has no live cell,
and so does any number of `Update`s. -/
theorem dead_grid_stays_dead (w : World) (hs : w.Shaped) (hf : w.Sized)
    (hdead : ∀ b ∈ w.area, b = false) :
    (∃ v, w.Update = some v ∧ v.area.length = w.area.length ∧ ∀ b ∈ v.area, b = false) ∧
      ∀ n, ∃ v, w.UpdateN n = some v ∧ ∀ b ∈ v.area, b = false := by
  refine ⟨?_, fun n => UpdateN_dead n w hs hf hdead⟩
  obtain ⟨v, h1, h2, _, h4⟩ := Update_dead w hs hf hdead
  obtain ⟨out, g1, g2, _⟩ := Update_spec w hs.1 hs.2.1 hs.2.2.1 hs.2.2.2 hf.1
  refine ⟨v, h1, ?_, h4⟩
  rw [h1] at g1
  simp only [Option.some.injEq] at g1
  subst g1
  exact g2

/-- Witness of C18: the empty 3 x 2 world over a scratch slice full of `true`. -/
theorem dead_grid_stays_dead_witness :
    (∃ v, World.Update ⟨List.replicate 6 false, 3, 2, List.replicate 6 true⟩ = some v ∧
        v.area.length = (List.replicate 6 false).length ∧ ∀ b ∈ v.area, b = false) ∧
      ∀ n, ∃ v, World.UpdateN n ⟨List.replicate 6 false, 3, 2, List.replicate 6 true⟩ = some v ∧
        ∀ b ∈ v.area, b = false :=
  dead_grid_stays_dead ⟨List.replicate 6 false, 3, 2, List.replicate 6 true⟩ (by decide)
    (by decide) (by decide)

end Life
